import Mathlib

/-!
# Shallow embedding of the `@ayshrj/ludo.js` rules engine (src/src/Ludo.ts)

The mutable class `Ludo` is modelled as a state record `LudoState`; every
method becomes a pure function on that record.  The only nondeterminism in
the source is `random(...)`: the dice draw and the starting-color choice are
therefore taken as explicit arguments.  Numbers are modelled as `Int`
(token positions use the sentinel -1) or `Nat` where the source only ever
holds small non-negative values.
-/

/-- The player colors (src/types: `Color`). -/
inductive Color : Type
  | red
  | green
  | yellow
  | blue
deriving DecidableEq, Repr

instance : Fintype Color :=
  ⟨⟨{Color.red, Color.green, Color.yellow, Color.blue}, by decide⟩, by
    intro c; cases c <;> decide⟩

/-- The game phases (src/types: `GameState`). -/
inductive GameState : Type
  | playerHasToRollADice
  | playerHasToSelectAPosition
  | gameFinished
deriving DecidableEq, Repr

/-- Positions of the four tokens of each color.  The source stores
`[number, number, number, number]` per color; we model the per-color record
as a function `Color → Fin 4 → Int`. -/
def TokenPositions : Type := Color → Fin 4 → Int

instance : DecidableEq TokenPositions :=
  fun f g => decidable_of_iff (∀ c i, f c i = g c i)
    ⟨fun h => funext fun c => funext fun i => h c i, fun h c i => by rw [h]⟩

/-- Write `tokenPositions[color][i] = v`. -/
def setTok (tp : TokenPositions) (color : Color) (i : Fin 4) (v : Int) :
    TokenPositions :=
  fun c' i' => if c' = color ∧ i' = i then v else tp c' i'

/-- The `tokenPositions` table right after `reset`: every token of every color at -1. -/
def initialTokenPositions : TokenPositions := fun _ _ => -1

/-- Printable color names, used by the status strings. -/
def colorName : Color → String
  | .red => "red"
  | .green => "green"
  | .yellow => "yellow"
  | .blue => "blue"

/-- Printable phase names, used by the status strings. -/
def gameStateName : GameState → String
  | .playerHasToRollADice => "playerHasToRollADice"
  | .playerHasToSelectAPosition => "playerHasToSelectAPosition"
  | .gameFinished => "gameFinished"

/-- The active color list chosen by the constructor from the player count. -/
def playersFor (numberOfPlayers : Nat) : List Color :=
  if numberOfPlayers = 2 then [.blue, .green]
  else if numberOfPlayers = 3 then [.blue, .red, .green]
  else [.blue, .red, .green, .yellow]

/-- The indices that are safe zones (`safeZones` field). -/
def safeZones : List Int := [0, 8, 13, 21, 26, 34, 39, 47]

/-- The `TRACK_LENGTH` field: track indices run 0..56. -/
def TRACK_LENGTH : Nat := 57

/-- The base path for red, built in `reset` by the twelve push loops. -/
def redPath : List (Int × Int) :=
  ((List.range 5).map fun k => ((6 : Int), (k : Int) + 1)) ++
  ((List.range 6).map fun k => (5 - (k : Int), (6 : Int))) ++
  ((List.range 2).map fun k => ((0 : Int), (k : Int) + 7)) ++
  ((List.range 5).map fun k => ((k : Int) + 1, (8 : Int))) ++
  ((List.range 6).map fun k => ((6 : Int), (k : Int) + 9)) ++
  ((List.range 2).map fun k => ((k : Int) + 7, (14 : Int))) ++
  ((List.range 5).map fun k => ((8 : Int), 13 - (k : Int))) ++
  ((List.range 6).map fun k => ((k : Int) + 9, (8 : Int))) ++
  ((List.range 2).map fun k => ((14 : Int), 7 - (k : Int))) ++
  ((List.range 5).map fun k => (13 - (k : Int), (6 : Int))) ++
  ((List.range 6).map fun k => ((8 : Int), 5 - (k : Int))) ++
  ((List.range 7).map fun k => ((7 : Int), (k : Int)))

/-- The method `rotateCoord`: rotate (r, c) by 90/180/270 degrees about (7,7). -/
def rotateCoord (coord : Int × Int) (angle : Nat) : Int × Int :=
  let center : Int := 7
  if angle = 90 then (center + (coord.2 - center), center - (coord.1 - center))
  else if angle = 180 then (14 - coord.1, 14 - coord.2)
  else (center - (coord.2 - center), center + (coord.1 - center))

/-- The per-color paths built in `reset` (`colorPaths` field).  They are
fixed data: `reset` always rebuilds the same four paths. -/
def colorPaths : Color → List (Int × Int)
  | .red => redPath
  | .green => redPath.map (rotateCoord · 90)
  | .yellow => redPath.map (rotateCoord · 180)
  | .blue => redPath.map (rotateCoord · 270)

/-- The mutable state of a `Ludo` instance (its non-constant fields; the
board metadata and `colorPaths` are rebuilt identically by every `reset`
and are kept as the global `colorPaths` definition). -/
structure LudoState : Type where
  tokenPositions : TokenPositions
  currentPiece : Color
  ranking : List Color
  currentDiceRoll : Option Nat
  lastDiceRoll : Option Nat
  validTokenIndices : List (Fin 4)
  currentConsecutiveSixes : Nat
  currentBoardStatus : String
  gameState : GameState
  players : List Color

instance : DecidableEq LudoState := fun s t => by
  cases s; cases t
  rw [LudoState.mk.injEq]
  infer_instance

/-- The method `reset` (and the constructor): the state after setup, given the active
player list and the randomly chosen starting color. -/
def resetState (players : List Color) (startingPiece : Color) : LudoState where
  tokenPositions := initialTokenPositions
  currentPiece := startingPiece
  ranking := []
  currentDiceRoll := none
  lastDiceRoll := none
  validTokenIndices := []
  currentConsecutiveSixes := 0
  currentBoardStatus := ""
  gameState := .playerHasToRollADice
  players := players

/-- The method `getValidMoves`: token indices movable by `color` with roll `roll`. -/
def getValidMoves (tp : TokenPositions) (color : Color) (roll : Nat) :
    List (Fin 4) :=
  (List.finRange 4).filter fun i =>
    let pos := tp color i
    if pos = 56 then false
    else if pos = -1 then decide (roll = 6)
    else decide (pos + (roll : Int) ≤ 56)

/-- Body of the inner loop of `handleCollisions`: examine token `i` of the
opponent `color`; if it sits on the destination cell, send it home and
count it. -/
def collideToken (color : Color) (dest : Int × Int)
    (acc2 : TokenPositions × Nat) (i : Fin 4) : TokenPositions × Nat :=
  let oppPos := acc2.1 color i
  if oppPos < 0 ∨ oppPos = 56 then acc2
  else if (colorPaths color).getD oppPos.toNat (0, 0) = dest then
    (setTok acc2.1 color i (-1), acc2.2 + 1)
  else acc2

/-- Body of the outer loop of `handleCollisions`: scan all four tokens of
`color` unless it is the moving color itself. -/
def collideColor (movingColor : Color) (dest : Int × Int)
    (acc : TokenPositions × Nat) (color : Color) : TokenPositions × Nat :=
  if color = movingColor then acc
  else (List.finRange 4).foldl (collideToken color dest) acc

/-- The method `handleCollisions`: scan every other active color's tokens for occupancy
of the destination cell; send matches home and count them. -/
def handleCollisions (players : List Color) (tp : TokenPositions)
    (newPos : Int) (movingColor : Color) : TokenPositions × Nat :=
  let dest := (colorPaths movingColor).getD newPos.toNat (0, 0)
  players.foldl (collideColor movingColor dest) (tp, 0)

/-- The color after `c` in the cyclic player order, as `nextTurn` computes
it: `players[(players.indexOf(currentPiece) + 1) % players.length]`.
JS `indexOf` yields -1 when absent; `(idx + 1) % length` is then 0. -/
def nextColorAfter (players : List Color) (c : Color) : Color :=
  let idx : Int := if c ∈ players then (players.indexOf c : Int) else -1
  players.getD ((idx + 1) % (players.length : Int)).toNat c

/-- The method `nextTurn`: advance to the next player, unless all colors are ranked. -/
def nextTurn (s : LudoState) : LudoState :=
  if s.players.length ≤ s.ranking.length then
    { s with
      gameState := .gameFinished
      currentBoardStatus := "Game Over! All players have finished." }
  else
    let next := nextColorAfter s.players s.currentPiece
    { s with
      currentPiece := next
      currentConsecutiveSixes := 0
      gameState := .playerHasToRollADice
      currentBoardStatus := "Now it is " ++ colorName next ++ " turn to roll." }

/-- The method `resetTurnState`: clear the pending roll and the valid-move set. -/
def resetTurnState (s : LudoState) (clearLastDiceRoll : Bool) : LudoState :=
  { s with
    currentDiceRoll := none
    validTokenIndices := []
    lastDiceRoll := if clearLastDiceRoll then none else s.lastDiceRoll }

/-- The method `rollDiceForCurrentPiece`.  The uniform draw `random(1, 6)` is passed in
as `rollValue`; the result pairs the successor state with the returned
number (-1 on phase rejection, the pending value on a redundant roll). -/
def rollDiceForCurrentPiece (s : LudoState) (rollValue : Nat) :
    LudoState × Int :=
  if s.gameState ≠ .playerHasToRollADice then
    ({ s with currentBoardStatus :=
        "Invalid action. Current state: " ++ gameStateName s.gameState ++ "." },
      -1)
  else
    match s.currentDiceRoll with
    | some pending =>
      ({ s with currentBoardStatus :=
          "Already rolled. You must select a token or pass." },
        (pending : Int))
    | none =>
      let s1 := { s with
        currentDiceRoll := some rollValue
        lastDiceRoll := some rollValue }
      if rollValue = 6 ∧ s1.currentConsecutiveSixes + 1 = 3 then
        let s2 := { s1 with
          currentConsecutiveSixes := s1.currentConsecutiveSixes + 1
          currentBoardStatus :=
            "Three consecutive sixes! Turn skipped for " ++
              colorName s1.currentPiece ++ "." }
        (nextTurn (resetTurnState s2 false), (rollValue : Int))
      else
        let s2 := { s1 with
          currentConsecutiveSixes :=
            if rollValue = 6 then s1.currentConsecutiveSixes + 1 else 0 }
        let valid := getValidMoves s2.tokenPositions s2.currentPiece rollValue
        if valid = [] then
          let s3 := { s2 with currentBoardStatus :=
            "No valid moves for " ++ colorName s2.currentPiece ++
              " (rolled " ++ toString rollValue ++ "). Passing turn." }
          (nextTurn (resetTurnState s3 false), (rollValue : Int))
        else
          ({ s2 with
              validTokenIndices := valid
              gameState := .playerHasToSelectAPosition },
            (rollValue : Int))

/-- The destination of the selected token: 0 when entering from home, else
current position plus roll. -/
def movedPos (s : LudoState) (tokenIndex : Fin 4) (roll : Nat) : Int :=
  if s.tokenPositions s.currentPiece tokenIndex = -1 then 0
  else s.tokenPositions s.currentPiece tokenIndex + roll

/-- The position table and capture count after the move is written and
collisions are resolved (skipped on the final cell and on safe zones). -/
def postCapture (s : LudoState) (tokenIndex : Fin 4) (roll : Nat) :
    TokenPositions × Nat :=
  if movedPos s tokenIndex roll ≠ 56 ∧ movedPos s tokenIndex roll ∉ safeZones
  then
    handleCollisions s.players
      (setTok s.tokenPositions s.currentPiece tokenIndex
        (movedPos s tokenIndex roll))
      (movedPos s tokenIndex roll) s.currentPiece
  else
    (setTok s.tokenPositions s.currentPiece tokenIndex
      (movedPos s tokenIndex roll), 0)

/-- The ranking after the move: the mover is appended when its token just
finished, all four of its tokens are at 56 and it is not yet ranked. -/
def postRanking (s : LudoState) (tokenIndex : Fin 4) (roll : Nat) :
    List Color :=
  if movedPos s tokenIndex roll = 56 ∧
      ((List.finRange 4).all fun i =>
        (postCapture s tokenIndex roll).1 s.currentPiece i = 56) = true ∧
      s.currentPiece ∉ s.ranking then
    s.ranking ++ [s.currentPiece]
  else s.ranking

/-- The tail of `selectToken` once every rejection check has passed: the
state after the move is written, captures are resolved, the ranking is
updated and the turn state is cleared. -/
def selectBase (s : LudoState) (tokenIndex : Fin 4) (roll : Nat) :
    LudoState :=
  resetTurnState
    { s with
      tokenPositions := (postCapture s tokenIndex roll).1
      ranking := postRanking s tokenIndex roll } false

/-- Hand the turn on after a successful selection (`s1` in the source is
`selectBase`, `captures` is `(postCapture ..).2`). -/
def selectOutcome (s : LudoState) (tokenIndex : Fin 4) (roll : Nat) :
    LudoState :=
  if 0 < (postCapture s tokenIndex roll).2 then
    { selectBase s tokenIndex roll with
      currentBoardStatus :=
        colorName (selectBase s tokenIndex roll).currentPiece ++
          " captured " ++ toString (postCapture s tokenIndex roll).2 ++
          " token(s). Roll again!"
      gameState := .playerHasToRollADice }
  else if roll = 6 then
    { selectBase s tokenIndex roll with
      currentBoardStatus :=
        colorName (selectBase s tokenIndex roll).currentPiece ++
          " rolled a 6. Roll again!"
      gameState := .playerHasToRollADice }
  else
    nextTurn (selectBase s tokenIndex roll)

/-- The method `selectToken`: move the chosen token, resolve captures, update the
ranking, then hand the turn on. -/
def selectToken (s : LudoState) (tokenIndex : Fin 4) : LudoState :=
  if s.gameState ≠ .playerHasToSelectAPosition then
    { s with currentBoardStatus :=
        "Invalid action. State: " ++ gameStateName s.gameState }
  else
    match s.currentDiceRoll with
    | none =>
      { s with currentBoardStatus :=
          "You must roll before selecting a token." }
    | some roll =>
      if tokenIndex ∉ s.validTokenIndices then
        { s with currentBoardStatus :=
            "That token is not a valid choice this turn." }
      else
        let currentPos := s.tokenPositions s.currentPiece tokenIndex
        if currentPos = -1 ∧ roll ≠ 6 then
          { s with currentBoardStatus :=
              "Cannot leave home without rolling a 6." }
        else if currentPos ≠ -1 ∧ (56 : Int) < currentPos + roll then
          { s with currentBoardStatus :=
              "Move would exceed final square. Cannot move." }
        else
          selectOutcome s tokenIndex roll

/-- Move score used by `bestMove` for one candidate token.  JS computes the
score as a double; every contribution is a multiple of 0.5 with small
magnitude, so the arithmetic is exact and is modelled in `ℚ`. -/
def moveScore (s : LudoState) (roll : Nat) (i : Fin 4) : ℚ :=
  let currentPos := s.tokenPositions s.currentPiece i
  let newPos : Int := if currentPos = -1 then 0 else currentPos + roll
  let leaveHome : ℚ := if currentPos = -1 ∧ roll = 6 then 35 else 0
  let safeBonus : ℚ := if newPos ∈ safeZones then 25 else 0
  let captureBonus : ℚ :=
    if newPos ≠ 56 ∧ newPos ∉ safeZones then
      let dest := (colorPaths s.currentPiece).getD newPos.toNat (0, 0)
      let captures := s.players.foldl
        (fun n oppColor =>
          if oppColor = s.currentPiece then n
          else
            (List.finRange 4).foldl
              (fun m oppI =>
                let oppPos := s.tokenPositions oppColor oppI
                if oppPos < 0 ∨ oppPos = 56 then m
                else if (colorPaths oppColor).getD oppPos.toNat (0, 0) = dest
                then m + 1 else m)
              n)
        0
      (captures : ℚ) * 50
    else 0
  let approach : ℚ := if 51 ≤ newPos ∧ newPos < 56 then 15 else 0
  let reach : ℚ := if newPos = 56 then 100 else 0
  let distance : ℚ := (newPos : ℚ) * (1 / 2)
  let risk : ℚ :=
    if newPos < 56 then
      let myCoord := (colorPaths s.currentPiece).getD newPos.toNat (0, 0)
      let risky := s.players.foldl
        (fun n oppColor =>
          if oppColor = s.currentPiece then n
          else
            (List.finRange 4).foldl
              (fun m oppI =>
                let oppPos := s.tokenPositions oppColor oppI
                if oppPos < 0 ∨ oppPos = 56 then m
                else if ((List.range 6).map fun d => oppPos + (d : Int) + 1).any
                    (fun testPos => testPos ≤ 56 ∧
                      (colorPaths oppColor).getD testPos.toNat (0, 0) = myCoord)
                then m + 1 else m)
              n)
        0
      (risky : ℚ) * 40
    else 0
  leaveHome + safeBonus + captureBonus + approach + reach + distance - risk

/-- One step of the `bestMove` scan: keep the candidate with the strictly
best score (`bestScore` starts at negative infinity, modelled as `none`). -/
def bestStep (s : LudoState) (roll : Nat) (acc : Option ℚ × Fin 4)
    (i : Fin 4) : Option ℚ × Fin 4 :=
  match acc.1 with
  | none => (some (moveScore s roll i), i)
  | some best =>
    if best < moveScore s roll i then (some (moveScore s roll i), i) else acc

/-- The method `bestMove`: scan the valid tokens in order, keeping the
strictly best score; -1 with no pending roll or no valid move. -/
def bestMove (s : LudoState) : Int :=
  match s.currentDiceRoll with
  | none => -1
  | some roll =>
    match getValidMoves s.tokenPositions s.currentPiece roll with
    | [] => -1
    | v0 :: rest =>
      ((((v0 :: rest).foldl (bestStep s roll) (none, v0)).2).val : Int)

/-- One externally triggered action: a dice roll with its random draw, or a
token selection. -/
inductive Step : Type
  | roll (v : Nat)
  | select (i : Fin 4)

/-- Apply one action to a state (ignoring the returned number of a roll). -/
def applyStep (s : LudoState) : Step → LudoState
  | .roll v => (rollDiceForCurrentPiece s v).1
  | .select i => selectToken s i

/-- Run a script of actions from a state. -/
def runScript (s : LudoState) (l : List Step) : LudoState := l.foldl applyStep s

/-- A roll step must carry a draw in 1..6 (what `random(1, 6)` returns). -/
def Step.ok : Step → Prop
  | .roll v => 1 ≤ v ∧ v ≤ 6
  | .select _ => True

instance : DecidablePred Step.ok := fun st => by
  cases st <;> simp [Step.ok] <;> infer_instance

/-- The states a `Ludo` instance can be in: a fresh instance for 2, 3 or 4
players with any starting color the constructor can draw, closed under
dice rolls (any draw in 1..6) and token selections.  `reset` leads back to
an initial state and `bestMove`/`getCurrentState` do not mutate. -/
inductive Reachable : LudoState → Prop
  | init : ∀ (n : Nat) (c : Color), n ∈ [2, 3, 4] → c ∈ playersFor n →
      Reachable (resetState (playersFor n) c)
  | roll : ∀ (s : LudoState) (v : Nat), Reachable s → 1 ≤ v → v ≤ 6 →
      Reachable (rollDiceForCurrentPiece s v).1
  | select : ∀ (s : LudoState) (i : Fin 4), Reachable s →
      Reachable (selectToken s i)

/-- Scripts of in-range actions lead from reachable states to reachable
states. -/
theorem reachable_runScript (s : LudoState) (l : List Step)
    (hs : Reachable s) (hl : ∀ a ∈ l, a.ok) : Reachable (runScript s l) := by
  induction l generalizing s with
  | nil => exact hs
  | cons a rest ih =>
    have ha : a.ok := hl a (List.mem_cons_self a rest)
    have hstep : Reachable (applyStep s a) := by
      cases a with
      | roll v => exact Reachable.roll s v hs ha.1 ha.2
      | select i => exact Reachable.select s i hs
    exact ih (applyStep s a) hstep fun b hb => hl b (List.mem_cons_of_mem a hb)

/-! ## Concrete game scripts

A complete scripted 2-player game used to exhibit reachable states; the
dice draws are the scripted values.  `blue` plays each token to the goal in
turns of at most two consecutive sixes while `green` auto-passes, then the
roles swap; green's fourth token is parked at 44 and the two endings branch
from there. -/

/-- A fresh 2-player instance whose random starting color came out blue. -/
def ludoStart : LudoState := resetState (playersFor 2) Color.blue

/-- One turn of the current color moving token `t` twice by six and once by
`last`: +12+`last` steps (entering on the first six if `t` is at home). -/
def turnSeg (t : Fin 4) (last : Nat) : List Step :=
  [.roll 6, .select t, .roll 6, .select t, .roll last, .select t]

/-- The final turn for token `t` sitting at 45: six to 51, five to 56. -/
def finishSeg (t : Fin 4) : List Step :=
  [.roll 6, .select t, .roll 5, .select t]

/-- Walk token `t` from home to the goal (the opponent, with every token
still at home or already finished, passes with a rolled 1 in between). -/
def tokenScript (t : Fin 4) : List Step :=
  turnSeg t 5 ++ [.roll 1] ++ turnSeg t 5 ++ [.roll 1] ++ turnSeg t 5 ++
    [.roll 1] ++ finishSeg t

/-- All four tokens of the color to move, one after the other. -/
def colorScriptFull : List Step :=
  tokenScript 0 ++ [.roll 1] ++ tokenScript 1 ++ [.roll 1] ++
    tokenScript 2 ++ [.roll 1] ++ tokenScript 3

/-- Green's fourth token from home to 44 (6+6+5, 6+6+5, 6+6+4). -/
def g3Part : List Step :=
  turnSeg 3 5 ++ [.roll 1] ++ turnSeg 3 5 ++ [.roll 1] ++
    [.roll 6, .select 3, .roll 6, .select 3, .roll 4, .select 3] ++ [.roll 1]

/-- Blue finishes all four tokens, green finishes three and parks the
fourth at 44; ends with green to roll, ranking `[blue]`. -/
def baseScript : List Step :=
  colorScriptFull ++
    (tokenScript 0 ++ [.roll 1] ++ tokenScript 1 ++ [.roll 1] ++
      tokenScript 2 ++ [.roll 1]) ++ g3Part

/-- Green finishes its last token on a second consecutive six (44 → 50 →
56): the full-ranking state keeps phase `playerHasToRollADice`. -/
def bigScript : List Step :=
  baseScript ++ [.roll 6, .select 3, .roll 6, .select 3]

/-- The reachable state with every color ranked, phase `AwaitingRoll` and a
consecutive-six count of 2. -/
def cornerState : LudoState := runScript ludoStart bigScript

/-- Green instead walks 44 → 50 → 51, then (after a blue auto-pass) rolls
a 5, leaving its last token at 51 with the 5 pending. -/
def c4Script : List Step :=
  baseScript ++ [.roll 6, .select 3, .roll 1, .select 3, .roll 1, .roll 5]

/-- The reachable state about to finish the whole game on a non-six. -/
def preC4State : LudoState := runScript ludoStart c4Script

/-! ## Basic lemmas about the operations -/

theorem setTok_same (tp : TokenPositions) (c : Color) (i : Fin 4) (v : Int) :
    setTok tp c i v c i = v := by
  simp [setTok]

theorem setTok_other (tp : TokenPositions) (c : Color) (i : Fin 4) (v : Int)
    (c' : Color) (i' : Fin 4) (h : ¬(c' = c ∧ i' = i)) :
    setTok tp c i v c' i' = tp c' i' := by
  simp [setTok, h]

/-- Membership in `getValidMoves`: exactly the tokens not at 56 that can
enter on a six or advance without overshooting. -/
theorem mem_getValidMoves (tp : TokenPositions) (color : Color) (roll : Nat)
    (i : Fin 4) :
    i ∈ getValidMoves tp color roll ↔
      tp color i ≠ 56 ∧
        ((tp color i = -1 ∧ roll = 6) ∨
          (tp color i ≠ -1 ∧ tp color i + (roll : Int) ≤ 56)) := by
  unfold getValidMoves
  rw [List.mem_filter]
  simp only [List.mem_finRange, true_and]
  by_cases h56 : tp color i = 56
  · simp [h56]
  · by_cases hhome : tp color i = -1
    · simp [h56, hhome]
    · simp [h56, hhome]

theorem selectToken_reject_phase (s : LudoState) (i : Fin 4)
    (h : s.gameState ≠ .playerHasToSelectAPosition) :
    selectToken s i =
      { s with currentBoardStatus :=
          "Invalid action. State: " ++ gameStateName s.gameState } := by
  simp [selectToken, h]

theorem selectToken_reject_nodice (s : LudoState) (i : Fin 4)
    (hp : s.gameState = .playerHasToSelectAPosition)
    (hd : s.currentDiceRoll = none) :
    selectToken s i =
      { s with currentBoardStatus :=
          "You must roll before selecting a token." } := by
  simp [selectToken, hp, hd]

theorem selectToken_reject_notmem (s : LudoState) (i : Fin 4) (roll : Nat)
    (hp : s.gameState = .playerHasToSelectAPosition)
    (hd : s.currentDiceRoll = some roll)
    (hm : i ∉ s.validTokenIndices) :
    selectToken s i =
      { s with currentBoardStatus :=
          "That token is not a valid choice this turn." } := by
  simp [selectToken, hp, hd, hm]

theorem selectToken_reject_home (s : LudoState) (i : Fin 4) (roll : Nat)
    (hp : s.gameState = .playerHasToSelectAPosition)
    (hd : s.currentDiceRoll = some roll)
    (hm : i ∈ s.validTokenIndices)
    (hpos : s.tokenPositions s.currentPiece i = -1) (hroll : roll ≠ 6) :
    selectToken s i =
      { s with currentBoardStatus :=
          "Cannot leave home without rolling a 6." } := by
  simp [selectToken, hp, hd, hm, hpos, hroll]

theorem selectToken_reject_overshoot (s : LudoState) (i : Fin 4) (roll : Nat)
    (hp : s.gameState = .playerHasToSelectAPosition)
    (hd : s.currentDiceRoll = some roll)
    (hm : i ∈ s.validTokenIndices)
    (hpos : s.tokenPositions s.currentPiece i ≠ -1)
    (hover : (56 : Int) < s.tokenPositions s.currentPiece i + roll) :
    selectToken s i =
      { s with currentBoardStatus :=
          "Move would exceed final square. Cannot move." } := by
  simp [selectToken, hp, hd, hm, hpos, hover]

/-- A selection that passes every rejection check runs `selectOutcome`. -/
theorem selectToken_success (s : LudoState) (i : Fin 4) (roll : Nat)
    (hp : s.gameState = .playerHasToSelectAPosition)
    (hd : s.currentDiceRoll = some roll)
    (hm : i ∈ s.validTokenIndices)
    (hleg1 : s.tokenPositions s.currentPiece i = -1 → roll = 6)
    (hleg2 : s.tokenPositions s.currentPiece i ≠ -1 →
      s.tokenPositions s.currentPiece i + (roll : Int) ≤ 56) :
    selectToken s i = selectOutcome s i roll := by
  by_cases hpos : s.tokenPositions s.currentPiece i = -1
  · simp [selectToken, hp, hd, hm, hpos, hleg1 hpos]
  · simp [selectToken, hp, hd, hm, hpos, not_lt.mpr (hleg2 hpos)]

theorem roll_reject_phase (s : LudoState) (v : Nat)
    (h : s.gameState ≠ .playerHasToRollADice) :
    rollDiceForCurrentPiece s v =
      ({ s with currentBoardStatus :=
          "Invalid action. Current state: " ++
            gameStateName s.gameState ++ "." }, -1) := by
  simp [rollDiceForCurrentPiece, h]

theorem roll_pending (s : LudoState) (v p : Nat)
    (hp : s.gameState = .playerHasToRollADice)
    (hd : s.currentDiceRoll = some p) :
    rollDiceForCurrentPiece s v =
      ({ s with currentBoardStatus :=
          "Already rolled. You must select a token or pass." }, (p : Int)) := by
  simp [rollDiceForCurrentPiece, hp, hd]

theorem roll_skip (s : LudoState) (v : Nat)
    (hp : s.gameState = .playerHasToRollADice)
    (hd : s.currentDiceRoll = none)
    (hv : v = 6) (hsix : s.currentConsecutiveSixes + 1 = 3) :
    rollDiceForCurrentPiece s v =
      (nextTurn (resetTurnState
        { s with
          currentDiceRoll := some v
          lastDiceRoll := some v
          currentConsecutiveSixes := s.currentConsecutiveSixes + 1
          currentBoardStatus := "Three consecutive sixes! Turn skipped for " ++
            colorName s.currentPiece ++ "." } false), (v : Int)) := by
  simp [rollDiceForCurrentPiece, hp, hd, hv, hsix]

theorem roll_nomoves (s : LudoState) (v : Nat)
    (hp : s.gameState = .playerHasToRollADice)
    (hd : s.currentDiceRoll = none)
    (hsix : ¬(v = 6 ∧ s.currentConsecutiveSixes + 1 = 3))
    (hvalid : getValidMoves s.tokenPositions s.currentPiece v = []) :
    rollDiceForCurrentPiece s v =
      (nextTurn (resetTurnState
        { s with
          currentDiceRoll := some v
          lastDiceRoll := some v
          currentConsecutiveSixes :=
            if v = 6 then s.currentConsecutiveSixes + 1 else 0
          currentBoardStatus := "No valid moves for " ++
            colorName s.currentPiece ++ " (rolled " ++ toString v ++
            "). Passing turn." } false), (v : Int)) := by
  simp only [rollDiceForCurrentPiece, hp, hd]
  rw [if_neg (by simp), if_neg hsix]
  simp [hp, hvalid]

theorem roll_tomoves (s : LudoState) (v : Nat)
    (hp : s.gameState = .playerHasToRollADice)
    (hd : s.currentDiceRoll = none)
    (hsix : ¬(v = 6 ∧ s.currentConsecutiveSixes + 1 = 3))
    (hvalid : getValidMoves s.tokenPositions s.currentPiece v ≠ []) :
    rollDiceForCurrentPiece s v =
      ({ s with
          currentDiceRoll := some v
          lastDiceRoll := some v
          currentConsecutiveSixes :=
            if v = 6 then s.currentConsecutiveSixes + 1 else 0
          validTokenIndices := getValidMoves s.tokenPositions s.currentPiece v
          gameState := .playerHasToSelectAPosition }, (v : Int)) := by
  simp only [rollDiceForCurrentPiece, hp, hd]
  rw [if_neg (by simp), if_neg hsix]
  simp [hp, hvalid]

/-- The step `nextTurn` only changes the current piece, six-counter, phase and
status. -/
theorem nextTurn_fields (s : LudoState) :
    (nextTurn s).tokenPositions = s.tokenPositions ∧
    (nextTurn s).ranking = s.ranking ∧
    (nextTurn s).players = s.players ∧
    (nextTurn s).currentDiceRoll = s.currentDiceRoll ∧
    (nextTurn s).validTokenIndices = s.validTokenIndices ∧
    (nextTurn s).lastDiceRoll = s.lastDiceRoll := by
  unfold nextTurn
  split <;> simp

/-- The step `nextTurn` either finishes the game in place or advances the piece. -/
theorem nextTurn_cases (s : LudoState) :
    (s.players.length ≤ s.ranking.length ∧
      (nextTurn s).gameState = .gameFinished ∧
      (nextTurn s).currentPiece = s.currentPiece ∧
      (nextTurn s).currentConsecutiveSixes = s.currentConsecutiveSixes) ∨
    (¬ s.players.length ≤ s.ranking.length ∧
      (nextTurn s).gameState = .playerHasToRollADice ∧
      (nextTurn s).currentPiece = nextColorAfter s.players s.currentPiece ∧
      (nextTurn s).currentConsecutiveSixes = 0) := by
  unfold nextTurn
  by_cases h : s.players.length ≤ s.ranking.length
  · left; simp [h]
  · right; simp [h]

theorem resetTurnState_fields (s : LudoState) :
    (resetTurnState s false).tokenPositions = s.tokenPositions ∧
    (resetTurnState s false).ranking = s.ranking ∧
    (resetTurnState s false).players = s.players ∧
    (resetTurnState s false).currentDiceRoll = none ∧
    (resetTurnState s false).validTokenIndices = [] ∧
    (resetTurnState s false).lastDiceRoll = s.lastDiceRoll ∧
    (resetTurnState s false).gameState = s.gameState ∧
    (resetTurnState s false).currentPiece = s.currentPiece ∧
    (resetTurnState s false).currentConsecutiveSixes =
      s.currentConsecutiveSixes := by
  simp [resetTurnState]

/-- Rolling never changes the token positions. -/
theorem roll_tokenPositions (s : LudoState) (v : Nat) :
    (rollDiceForCurrentPiece s v).1.tokenPositions = s.tokenPositions := by
  by_cases hp : s.gameState = .playerHasToRollADice
  · cases hd : s.currentDiceRoll with
    | some p => rw [roll_pending s v p hp hd]
    | none =>
      by_cases hsix : v = 6 ∧ s.currentConsecutiveSixes + 1 = 3
      · rw [roll_skip s v hp hd hsix.1 hsix.2]
        rw [(nextTurn_fields _).1, (resetTurnState_fields _).1]
      · by_cases hvalid : getValidMoves s.tokenPositions s.currentPiece v = []
        · rw [roll_nomoves s v hp hd hsix hvalid]
          rw [(nextTurn_fields _).1, (resetTurnState_fields _).1]
        · rw [roll_tomoves s v hp hd hsix hvalid]
  · rw [roll_reject_phase s v hp]

/-- Rolling never changes the ranking. -/
theorem roll_ranking (s : LudoState) (v : Nat) :
    (rollDiceForCurrentPiece s v).1.ranking = s.ranking := by
  by_cases hp : s.gameState = .playerHasToRollADice
  · cases hd : s.currentDiceRoll with
    | some p => rw [roll_pending s v p hp hd]
    | none =>
      by_cases hsix : v = 6 ∧ s.currentConsecutiveSixes + 1 = 3
      · rw [roll_skip s v hp hd hsix.1 hsix.2]
        rw [(nextTurn_fields _).2.1, (resetTurnState_fields _).2.1]
      · by_cases hvalid : getValidMoves s.tokenPositions s.currentPiece v = []
        · rw [roll_nomoves s v hp hd hsix hvalid]
          rw [(nextTurn_fields _).2.1, (resetTurnState_fields _).2.1]
        · rw [roll_tomoves s v hp hd hsix hvalid]
  · rw [roll_reject_phase s v hp]

/-- Rolling never changes the player list. -/
theorem roll_players (s : LudoState) (v : Nat) :
    (rollDiceForCurrentPiece s v).1.players = s.players := by
  by_cases hp : s.gameState = .playerHasToRollADice
  · cases hd : s.currentDiceRoll with
    | some p => rw [roll_pending s v p hp hd]
    | none =>
      by_cases hsix : v = 6 ∧ s.currentConsecutiveSixes + 1 = 3
      · rw [roll_skip s v hp hd hsix.1 hsix.2]
        rw [(nextTurn_fields _).2.2.1, (resetTurnState_fields _).2.2.1]
      · by_cases hvalid : getValidMoves s.tokenPositions s.currentPiece v = []
        · rw [roll_nomoves s v hp hd hsix hvalid]
          rw [(nextTurn_fields _).2.2.1, (resetTurnState_fields _).2.2.1]
        · rw [roll_tomoves s v hp hd hsix hvalid]
  · rw [roll_reject_phase s v hp]

/-- The cyclically next color is an element of a non-empty player list. -/
theorem nextColorAfter_mem (players : List Color) (c : Color)
    (h : players ≠ []) : nextColorAfter players c ∈ players := by
  unfold nextColorAfter
  have hlen : 0 < players.length := List.length_pos.mpr h
  have hlenZ : (0 : Int) < (players.length : Int) := by exact_mod_cast hlen
  set idx : Int := if c ∈ players then (players.indexOf c : Int) else -1
    with hidx
  have h1 : 0 ≤ (idx + 1) % (players.length : Int) :=
    Int.emod_nonneg _ (by omega)
  have h2 : (idx + 1) % (players.length : Int) < (players.length : Int) :=
    Int.emod_lt_of_pos _ hlenZ
  have hlt : ((idx + 1) % (players.length : Int)).toNat < players.length := by
    omega
  rw [List.getD_eq_getElem _ _ hlt]
  exact List.getElem_mem _

/-! ## Characterization of capture resolution -/

/-- Token `i` of `color` is captured by a move landing on `dest`: it is on
the track (not home, not finished) and its own-path coordinate is `dest`. -/
def capturedAt (tp : TokenPositions) (dest : Int × Int) (color : Color)
    (i : Fin 4) : Prop :=
  ¬(tp color i < 0 ∨ tp color i = 56) ∧
    (colorPaths color).getD (tp color i).toNat (0, 0) = dest

instance : ∀ tp dest color i, Decidable (capturedAt tp dest color i) :=
  fun tp dest color i => by unfold capturedAt; infer_instance

theorem capturedAt_congr (tp tp' : TokenPositions) (dest : Int × Int)
    (color : Color) (i : Fin 4) (h : tp color i = tp' color i) :
    capturedAt tp dest color i ↔ capturedAt tp' dest color i := by
  unfold capturedAt; rw [h]

theorem collideToken_foldl_spec (color : Color) (dest : Int × Int)
    (idxs : List (Fin 4)) (hnd : idxs.Nodup) (tp : TokenPositions) (k : Nat) :
    (∀ c' i', ¬(c' = color ∧ i' ∈ idxs) →
      (idxs.foldl (collideToken color dest) (tp, k)).1 c' i' = tp c' i') ∧
    (∀ i ∈ idxs,
      (idxs.foldl (collideToken color dest) (tp, k)).1 color i =
        if capturedAt tp dest color i then -1 else tp color i) ∧
    (idxs.foldl (collideToken color dest) (tp, k)).2 =
      k + idxs.countP (fun i => decide (capturedAt tp dest color i)) := by
  induction idxs generalizing tp k with
  | nil => simp
  | cons i rest ih =>
    have hi : i ∉ rest := (List.nodup_cons.mp hnd).1
    have hrest : rest.Nodup := (List.nodup_cons.mp hnd).2
    rw [List.foldl_cons]
    by_cases hcap : capturedAt tp dest color i
    · have hstep : collideToken color dest (tp, k) i =
          (setTok tp color i (-1), k + 1) := by
        unfold collideToken
        rw [if_neg hcap.1, if_pos hcap.2]
      rw [hstep]
      obtain ⟨ih1, ih2, ih3⟩ := ih hrest (setTok tp color i (-1)) (k + 1)
      refine ⟨?_, ?_, ?_⟩
      · intro c' i' hno
        rw [ih1 c' i' fun hc => hno ⟨hc.1, List.mem_cons_of_mem i hc.2⟩]
        exact setTok_other _ _ _ _ _ _ fun hc =>
          hno ⟨hc.1, hc.2 ▸ List.mem_cons_self i rest⟩
      · intro j hj
        rcases List.mem_cons.mp hj with hj | hj
        · subst hj
          rw [ih1 color j fun hc => hi hc.2, setTok_same, if_pos hcap]
        · have hne : j ≠ i := fun he => hi (he ▸ hj)
          have htp : setTok tp color i (-1) color j = tp color j :=
            setTok_other _ _ _ _ _ _ fun hc => hne hc.2
          rw [ih2 j hj, htp]
          exact if_congr ((capturedAt_congr _ _ dest color j htp.symm).symm)
            rfl rfl
      · have hcount : rest.countP
            (fun j => decide (capturedAt (setTok tp color i (-1)) dest color j))
            = rest.countP (fun j => decide (capturedAt tp dest color j)) := by
          apply List.countP_congr
          intro j hj
          have hne : j ≠ i := fun he => hi (he ▸ hj)
          simp only [decide_eq_true_eq]
          exact capturedAt_congr _ _ dest color j
            (setTok_other _ _ _ _ _ _ fun hc => hne hc.2)
        rw [ih3, hcount, List.countP_cons]
        rw [decide_eq_true hcap, if_pos rfl]
        omega
    · have hstep : collideToken color dest (tp, k) i = (tp, k) := by
        unfold collideToken
        by_cases hskip : tp color i < 0 ∨ tp color i = 56
        · rw [if_pos hskip]
        · rw [if_neg hskip, if_neg fun hc => hcap ⟨hskip, hc⟩]
      rw [hstep]
      obtain ⟨ih1, ih2, ih3⟩ := ih hrest tp k
      refine ⟨?_, ?_, ?_⟩
      · intro c' i' hno
        exact ih1 c' i' fun hc => hno ⟨hc.1, List.mem_cons_of_mem i hc.2⟩
      · intro j hj
        rcases List.mem_cons.mp hj with hj | hj
        · subst hj
          rw [ih1 color j fun hc => hi hc.2, if_neg hcap]
        · exact ih2 j hj
      · rw [ih3, List.countP_cons, decide_eq_false hcap,
          if_neg Bool.false_ne_true]
        omega

/-- The per-color capture count of a scan over `cols`. -/
def captureCount (cols : List Color) (tp : TokenPositions)
    (dest : Int × Int) (movingColor : Color) : Nat :=
  (cols.map fun c =>
    if c = movingColor then 0
    else (List.finRange 4).countP fun i => decide (capturedAt tp dest c i)).sum

theorem collideColor_foldl_spec (movingColor : Color) (dest : Int × Int)
    (cols : List Color) (hnd : cols.Nodup) (tp : TokenPositions) (k : Nat) :
    (∀ c i, (c ∉ cols ∨ c = movingColor) →
      (cols.foldl (collideColor movingColor dest) (tp, k)).1 c i = tp c i) ∧
    (∀ c ∈ cols, c ≠ movingColor → ∀ i,
      (cols.foldl (collideColor movingColor dest) (tp, k)).1 c i =
        if capturedAt tp dest c i then -1 else tp c i) ∧
    (cols.foldl (collideColor movingColor dest) (tp, k)).2 =
      k + captureCount cols tp dest movingColor := by
  induction cols generalizing tp k with
  | nil => simp [captureCount]
  | cons c rest ih =>
    have hc : c ∉ rest := (List.nodup_cons.mp hnd).1
    have hrest : rest.Nodup := (List.nodup_cons.mp hnd).2
    rw [List.foldl_cons]
    by_cases hmov : c = movingColor
    · have hstep : collideColor movingColor dest (tp, k) c = (tp, k) := by
        unfold collideColor
        rw [if_pos hmov]
      rw [hstep]
      obtain ⟨ih1, ih2, ih3⟩ := ih hrest tp k
      refine ⟨?_, ?_, ?_⟩
      · intro c' i h
        refine ih1 c' i ?_
        rcases h with h | h
        · exact Or.inl fun hr => h (List.mem_cons_of_mem c hr)
        · exact Or.inr h
      · intro c' hc' hne i
        rcases List.mem_cons.mp hc' with h | h
        · exact absurd (h.trans hmov) hne
        · exact ih2 c' h hne i
      · rw [ih3]
        unfold captureCount
        rw [List.map_cons, List.sum_cons, if_pos hmov]
        omega
    · have hstep : collideColor movingColor dest (tp, k) c =
          (List.finRange 4).foldl (collideToken c dest) (tp, k) := by
        unfold collideColor
        rw [if_neg hmov]
      rw [hstep]
      obtain ⟨sp1, sp2, sp3⟩ := collideToken_foldl_spec c dest
        (List.finRange 4) (List.nodup_finRange 4) tp k
      set a := (List.finRange 4).foldl (collideToken c dest) (tp, k) with ha
      have ha1 : ∀ c' i', c' ≠ c → a.1 c' i' = tp c' i' := fun c' i' h =>
        sp1 c' i' fun hx => h hx.1
      have ha2 : ∀ i, a.1 c i =
          if capturedAt tp dest c i then -1 else tp c i := fun i =>
        sp2 i (List.mem_finRange i)
      obtain ⟨ih1, ih2, ih3⟩ := ih hrest a.1 a.2
      have hfold : rest.foldl (collideColor movingColor dest) a =
          rest.foldl (collideColor movingColor dest) (a.1, a.2) := by rfl
      refine ⟨?_, ?_, ?_⟩
      · intro c' i h
        have hnec : c' ≠ c := by
          rcases h with h | h
          · exact fun he => h (he ▸ List.mem_cons_self c rest)
          · exact fun he => hmov (he ▸ h)
        rw [hfold, ih1 c' i ?_, ha1 c' i hnec]
        rcases h with h | h
        · exact Or.inl fun hr => h (List.mem_cons_of_mem c hr)
        · exact Or.inr h
      · intro c' hc' hne i
        rcases List.mem_cons.mp hc' with h | h
        · subst h
          rw [hfold, ih1 c' i (Or.inl hc), ha2 i]
        · have hnec : c' ≠ c := fun he => hc (he ▸ h)
          rw [hfold, ih2 c' h hne i,
            if_congr (capturedAt_congr a.1 tp dest c' i (ha1 c' i hnec))
              rfl rfl, ha1 c' i hnec]
      · rw [hfold, ih3, sp3]
        unfold captureCount
        rw [List.map_cons, List.sum_cons, if_neg hmov]
        have hmap : rest.map (fun c' =>
            if c' = movingColor then 0
            else (List.finRange 4).countP fun i =>
              decide (capturedAt a.1 dest c' i)) =
          rest.map (fun c' =>
            if c' = movingColor then 0
            else (List.finRange 4).countP fun i =>
              decide (capturedAt tp dest c' i)) := by
          apply List.map_congr_left
          intro c' hc'
          by_cases hm : c' = movingColor
          · rw [if_pos hm, if_pos hm]
          · rw [if_neg hm, if_neg hm]
            apply List.countP_congr
            intro i _
            have hnec : c' ≠ c := fun he => hc (he ▸ hc')
            simp only [decide_eq_true_eq]
            exact capturedAt_congr a.1 tp dest c' i (ha1 c' i hnec)
        rw [hmap]
        omega

/-- Full characterization of `handleCollisions` for a duplicate-free player
list: entries of the moving color and of inactive colors are untouched;
each opponent token is sent home exactly when it sits on the destination
cell; the returned count is the number of tokens sent home. -/
theorem handleCollisions_spec (players : List Color) (tp : TokenPositions)
    (newPos : Int) (movingColor : Color) (hnd : players.Nodup) :
    (∀ c i, (c ∉ players ∨ c = movingColor) →
      (handleCollisions players tp newPos movingColor).1 c i = tp c i) ∧
    (∀ c ∈ players, c ≠ movingColor → ∀ i,
      (handleCollisions players tp newPos movingColor).1 c i =
        if capturedAt tp ((colorPaths movingColor).getD newPos.toNat (0, 0))
            c i then -1
        else tp c i) ∧
    (handleCollisions players tp newPos movingColor).2 =
      captureCount players tp
        ((colorPaths movingColor).getD newPos.toNat (0, 0)) movingColor := by
  obtain ⟨h1, h2, h3⟩ := collideColor_foldl_spec movingColor
    ((colorPaths movingColor).getD newPos.toNat (0, 0)) players hnd tp 0
  exact ⟨h1, h2, by rw [handleCollisions, h3, Nat.zero_add]⟩

/-- Every entry of the position table is either untouched or sent home by
`handleCollisions` (no duplicate-freedom needed). -/
theorem handleCollisions_entry (players : List Color) (tp : TokenPositions)
    (newPos : Int) (movingColor : Color) (c : Color) (i : Fin 4) :
    (handleCollisions players tp newPos movingColor).1 c i = tp c i ∨
      ((handleCollisions players tp newPos movingColor).1 c i = -1 ∧
        c ≠ movingColor ∧ 0 ≤ tp c i ∧ tp c i ≠ 56) := by
  unfold handleCollisions
  set dest := (colorPaths movingColor).getD newPos.toNat (0, 0)
  suffices h : ∀ (cols : List Color) (acc : TokenPositions × Nat),
      (acc.1 c i = tp c i ∨
        (acc.1 c i = -1 ∧ c ≠ movingColor ∧ 0 ≤ tp c i ∧ tp c i ≠ 56)) →
      ((cols.foldl (collideColor movingColor dest) acc).1 c i = tp c i ∨
        ((cols.foldl (collideColor movingColor dest) acc).1 c i = -1 ∧
          c ≠ movingColor ∧ 0 ≤ tp c i ∧ tp c i ≠ 56)) by
    exact h players (tp, 0) (Or.inl rfl)
  intro cols
  induction cols with
  | nil => intro acc h; exact h
  | cons col rest ih =>
    intro acc h
    rw [List.foldl_cons]
    apply ih
    unfold collideColor
    by_cases hmov : col = movingColor
    · rw [if_pos hmov]; exact h
    · rw [if_neg hmov]
      suffices h2 : ∀ (idxs : List (Fin 4)) (acc2 : TokenPositions × Nat),
          (acc2.1 c i = tp c i ∨
            (acc2.1 c i = -1 ∧ c ≠ movingColor ∧ 0 ≤ tp c i ∧ tp c i ≠ 56)) →
          ((idxs.foldl (collideToken col dest) acc2).1 c i = tp c i ∨
            ((idxs.foldl (collideToken col dest) acc2).1 c i = -1 ∧
              c ≠ movingColor ∧ 0 ≤ tp c i ∧ tp c i ≠ 56)) by
        exact h2 (List.finRange 4) acc h
      intro idxs
      induction idxs with
      | nil => intro acc2 h2; exact h2
      | cons j rest2 ih2 =>
        intro acc2 h2
        rw [List.foldl_cons]
        apply ih2
        unfold collideToken
        by_cases hskip : acc2.1 col j < 0 ∨ acc2.1 col j = 56
        · rw [if_pos hskip]; exact h2
        · rw [if_neg hskip]
          by_cases hhit : (colorPaths col).getD (acc2.1 col j).toNat (0, 0) =
            dest
          · rw [if_pos hhit]
            by_cases hji : c = col ∧ i = j
            · right
              have hacc : acc2.1 col j = acc2.1 c i := by rw [hji.1, hji.2]
              have hcne : c ≠ movingColor := fun he => hmov (hji.1 ▸ he)
              rcases h2 with h2a | h2b
              · rw [hacc, h2a] at hskip
                refine ⟨?_, hcne, by omega, by omega⟩
                show setTok acc2.1 col j (-1) c i = -1
                rw [hji.1, hji.2]
                exact setTok_same ..
              · exfalso
                rw [hacc, h2b.1] at hskip
                exact hskip (Or.inl (by omega))
            · have hred : (setTok acc2.1 col j (-1), acc2.2 + 1).1 c i =
                  acc2.1 c i := setTok_other _ _ _ _ _ _ hji
              rw [hred]
              exact h2
          · rw [if_neg hhit]; exact h2

/-! ## Field lemmas for the success path of `selectToken` -/

theorem selectBase_fields (s : LudoState) (i : Fin 4) (roll : Nat) :
    (selectBase s i roll).tokenPositions = (postCapture s i roll).1 ∧
    (selectBase s i roll).ranking = postRanking s i roll ∧
    (selectBase s i roll).players = s.players ∧
    (selectBase s i roll).currentPiece = s.currentPiece ∧
    (selectBase s i roll).currentDiceRoll = none ∧
    (selectBase s i roll).validTokenIndices = [] ∧
    (selectBase s i roll).lastDiceRoll = s.lastDiceRoll ∧
    (selectBase s i roll).currentConsecutiveSixes =
      s.currentConsecutiveSixes ∧
    (selectBase s i roll).gameState = s.gameState := by
  unfold selectBase resetTurnState
  simp

theorem selectOutcome_players (s : LudoState) (i : Fin 4) (roll : Nat) :
    (selectOutcome s i roll).players = s.players := by
  unfold selectOutcome
  split_ifs <;>
    first
      | exact (selectBase_fields s i roll).2.2.1
      | rw [(nextTurn_fields _).2.2.1]
        exact (selectBase_fields s i roll).2.2.1

theorem selectOutcome_tokenPositions (s : LudoState) (i : Fin 4) (roll : Nat) :
    (selectOutcome s i roll).tokenPositions = (postCapture s i roll).1 := by
  unfold selectOutcome
  split_ifs <;>
    first
      | exact (selectBase_fields s i roll).1
      | rw [(nextTurn_fields _).1]
        exact (selectBase_fields s i roll).1

theorem selectOutcome_ranking (s : LudoState) (i : Fin 4) (roll : Nat) :
    (selectOutcome s i roll).ranking = postRanking s i roll := by
  unfold selectOutcome
  split_ifs <;>
    first
      | exact (selectBase_fields s i roll).2.1
      | rw [(nextTurn_fields _).2.1]
        exact (selectBase_fields s i roll).2.1

theorem selectOutcome_dice (s : LudoState) (i : Fin 4) (roll : Nat) :
    (selectOutcome s i roll).currentDiceRoll = none := by
  unfold selectOutcome
  split_ifs <;>
    first
      | exact (selectBase_fields s i roll).2.2.2.2.1
      | rw [(nextTurn_fields _).2.2.2.1]
        exact (selectBase_fields s i roll).2.2.2.2.1

theorem selectOutcome_valid (s : LudoState) (i : Fin 4) (roll : Nat) :
    (selectOutcome s i roll).validTokenIndices = [] := by
  unfold selectOutcome
  split_ifs <;>
    first
      | exact (selectBase_fields s i roll).2.2.2.2.2.1
      | rw [(nextTurn_fields _).2.2.2.2.1]
        exact (selectBase_fields s i roll).2.2.2.2.2.1

/-- The three ways the success path hands the turn on: capture and six keep
the piece with phase `AwaitingRoll`; otherwise `nextTurn` runs. -/
theorem selectOutcome_turn (s : LudoState) (i : Fin 4) (roll : Nat) :
    (0 < (postCapture s i roll).2 ∧
      (selectOutcome s i roll).gameState = .playerHasToRollADice ∧
      (selectOutcome s i roll).currentPiece = s.currentPiece ∧
      (selectOutcome s i roll).currentConsecutiveSixes =
        s.currentConsecutiveSixes) ∨
    ((postCapture s i roll).2 = 0 ∧ roll = 6 ∧
      (selectOutcome s i roll).gameState = .playerHasToRollADice ∧
      (selectOutcome s i roll).currentPiece = s.currentPiece ∧
      (selectOutcome s i roll).currentConsecutiveSixes =
        s.currentConsecutiveSixes) ∨
    ((postCapture s i roll).2 = 0 ∧ roll ≠ 6 ∧
      selectOutcome s i roll = nextTurn (selectBase s i roll)) := by
  obtain ⟨-, -, -, hcur, -, -, -, hsix, -⟩ := selectBase_fields s i roll
  unfold selectOutcome
  by_cases hcap : 0 < (postCapture s i roll).2
  · left
    rw [if_pos hcap]
    exact ⟨hcap, rfl, hcur, hsix⟩
  · have hzero : (postCapture s i roll).2 = 0 := by omega
    rw [if_neg hcap]
    by_cases h6 : roll = 6
    · right; left
      rw [if_pos h6]
      exact ⟨hzero, h6, rfl, hcur, hsix⟩
    · right; right
      rw [if_neg h6]
      exact ⟨hzero, h6, rfl⟩

/-- Each entry of the table produced by `postCapture` is the entry after
the mover's write, or a captured opponent token sent to -1. -/
theorem postCapture_entry (s : LudoState) (i : Fin 4) (roll : Nat)
    (c : Color) (j : Fin 4) :
    (postCapture s i roll).1 c j =
      setTok s.tokenPositions s.currentPiece i (movedPos s i roll) c j ∨
    ((postCapture s i roll).1 c j = -1 ∧ c ≠ s.currentPiece ∧
      setTok s.tokenPositions s.currentPiece i (movedPos s i roll) c j ≠
        56) := by
  unfold postCapture
  split
  · exact (handleCollisions_entry s.players _ _ s.currentPiece c j).imp id
      fun h => ⟨h.1, h.2.1, h.2.2.2⟩
  · left; rfl

/-- The table produced by `postCapture` never disturbs a token already at 56. -/
theorem postCapture_56 (s : LudoState) (i : Fin 4) (roll : Nat)
    (c : Color) (j : Fin 4)
    (h : setTok s.tokenPositions s.currentPiece i (movedPos s i roll) c j =
      56) :
    (postCapture s i roll).1 c j = 56 := by
  rcases postCapture_entry s i roll c j with h1 | h1
  · rw [h1, h]
  · exact absurd h h1.2.2

/-- The table produced by `postCapture` never touches the moving color's own tokens. -/
theorem postCapture_moving (s : LudoState) (i : Fin 4) (roll : Nat)
    (j : Fin 4) :
    (postCapture s i roll).1 s.currentPiece j =
      setTok s.tokenPositions s.currentPiece i (movedPos s i roll)
        s.currentPiece j := by
  rcases postCapture_entry s i roll s.currentPiece j with h1 | h1
  · exact h1
  · exact absurd rfl h1.2.1

/-! ## The reachable-state invariant -/

/-- Invariant satisfied by every reachable state: a legal player list with
the current piece in it, position values in the legal domain, a
duplicate-free ranking of players whose tokens have all finished, no
pending dice in the roll phase, and a pending in-range dice value with a
non-empty, up-to-date legal-move set in the selection phase. -/
structure LudoInv (s : LudoState) : Prop where
  players_eq : s.players = playersFor 2 ∨ s.players = playersFor 3 ∨
    s.players = playersFor 4
  cur_mem : s.currentPiece ∈ s.players
  pos_dom : ∀ c i, s.tokenPositions c i = -1 ∨
    (0 ≤ s.tokenPositions c i ∧ s.tokenPositions c i ≤ 56)
  rank_nodup : s.ranking.Nodup
  rank_sub : ∀ c ∈ s.ranking, c ∈ s.players
  rank_done : ∀ c ∈ s.ranking, ∀ i, s.tokenPositions c i = 56
  dice_await : s.gameState = .playerHasToRollADice → s.currentDiceRoll = none
  select_inv : s.gameState = .playerHasToSelectAPosition →
    ∃ v, s.currentDiceRoll = some v ∧ 1 ≤ v ∧ v ≤ 6 ∧
      s.validTokenIndices = getValidMoves s.tokenPositions s.currentPiece v ∧
      s.validTokenIndices ≠ []

theorem LudoInv.players_ne_nil (s : LudoState) (h : LudoInv s) : s.players ≠ [] := by
  rcases h.players_eq with he | he | he <;> rw [he] <;> simp [playersFor]

theorem LudoInv.players_nodup (s : LudoState) (h : LudoInv s) : s.players.Nodup := by
  rcases h.players_eq with he | he | he <;> rw [he] <;> decide

/-- A status-text-only update preserves the invariant. -/
theorem LudoInv.status (s : LudoState) (msg : String) (h : LudoInv s) :
    LudoInv { s with currentBoardStatus := msg } :=
  ⟨h.players_eq, h.cur_mem, h.pos_dom, h.rank_nodup, h.rank_sub,
    h.rank_done, h.dice_await, h.select_inv⟩

/-- The step `nextTurn` preserves the invariant from any state with no pending
dice. -/
theorem inv_nextTurn (x : LudoState)
    (hpe : x.players = playersFor 2 ∨ x.players = playersFor 3 ∨
      x.players = playersFor 4)
    (hcm : x.currentPiece ∈ x.players)
    (hpd : ∀ c i, x.tokenPositions c i = -1 ∨
      (0 ≤ x.tokenPositions c i ∧ x.tokenPositions c i ≤ 56))
    (hrn : x.ranking.Nodup)
    (hrs : ∀ c ∈ x.ranking, c ∈ x.players)
    (hrd : ∀ c ∈ x.ranking, ∀ i, x.tokenPositions c i = 56)
    (hdice : x.currentDiceRoll = none) :
    LudoInv (nextTurn x) := by
  obtain ⟨f1, f2, f3, f4, f5, f6⟩ := nextTurn_fields x
  have hne : x.players ≠ [] := by
    rcases hpe with he | he | he <;> rw [he] <;> simp [playersFor]
  rcases nextTurn_cases x with ⟨hle, hg, hc, _⟩ | ⟨hlt, hg, hc, _⟩
  · exact ⟨f3 ▸ hpe, by rw [f3, hc]; exact hcm, by rw [f1]; exact hpd,
      f2 ▸ hrn, by rw [f2, f3]; exact hrs, by rw [f2, f1]; exact hrd,
      fun hgg => by rw [f4, hdice],
      fun hgg => absurd (hg ▸ hgg) (by simp)⟩
  · exact ⟨f3 ▸ hpe, by rw [f3, hc]; exact nextColorAfter_mem _ _ hne,
      by rw [f1]; exact hpd,
      f2 ▸ hrn, by rw [f2, f3]; exact hrs, by rw [f2, f1]; exact hrd,
      fun hgg => by rw [f4, hdice],
      fun hgg => absurd (hg ▸ hgg) (by simp)⟩

/-- Fresh instances satisfy the invariant. -/
theorem inv_init (n : Nat) (c : Color) (hn : n ∈ [2, 3, 4])
    (hc : c ∈ playersFor n) : LudoInv (resetState (playersFor n) c) := by
  refine ⟨?_, hc, ?_, ?_, ?_, ?_, ?_, ?_⟩
  · have hn3 : n = 2 ∨ n = 3 ∨ n = 4 := by simpa using hn
    rcases hn3 with h | h | h <;> subst h
    · exact Or.inl rfl
    · exact Or.inr (Or.inl rfl)
    · exact Or.inr (Or.inr rfl)
  · intro cc i; left; rfl
  · exact List.nodup_nil
  · intro cc hcc; cases hcc
  · intro cc hcc; cases hcc
  · intro _; rfl
  · intro hgg; cases hgg

/-- Rolling preserves the invariant. -/
theorem inv_roll (s : LudoState) (v : Nat) (hv1 : 1 ≤ v) (hv6 : v ≤ 6)
    (h : LudoInv s) : LudoInv (rollDiceForCurrentPiece s v).1 := by
  by_cases hp : s.gameState = .playerHasToRollADice
  · cases hd : s.currentDiceRoll with
    | some p =>
      rw [roll_pending s v p hp hd]
      exact LudoInv.status s _ h
    | none =>
      by_cases hsix : v = 6 ∧ s.currentConsecutiveSixes + 1 = 3
      · rw [roll_skip s v hp hd hsix.1 hsix.2]
        obtain ⟨g1, g2, g3, g4, g5, g6, g7, g8, g9⟩ := resetTurnState_fields
          { s with
            currentDiceRoll := some v
            lastDiceRoll := some v
            currentConsecutiveSixes := s.currentConsecutiveSixes + 1
            currentBoardStatus :=
              "Three consecutive sixes! Turn skipped for " ++
                colorName s.currentPiece ++ "." }
        apply inv_nextTurn
        · rw [g3]; exact h.players_eq
        · rw [g8, g3]; exact h.cur_mem
        · rw [g1]; exact h.pos_dom
        · rw [g2]; exact h.rank_nodup
        · rw [g2, g3]; exact h.rank_sub
        · rw [g2, g1]; exact h.rank_done
        · exact g4
      · by_cases hvalid : getValidMoves s.tokenPositions s.currentPiece v = []
        · rw [roll_nomoves s v hp hd hsix hvalid]
          obtain ⟨g1, g2, g3, g4, g5, g6, g7, g8, g9⟩ := resetTurnState_fields
            { s with
              currentDiceRoll := some v
              lastDiceRoll := some v
              currentConsecutiveSixes :=
                if v = 6 then s.currentConsecutiveSixes + 1 else 0
              currentBoardStatus := "No valid moves for " ++
                colorName s.currentPiece ++ " (rolled " ++ toString v ++
                "). Passing turn." }
          apply inv_nextTurn
          · rw [g3]; exact h.players_eq
          · rw [g8, g3]; exact h.cur_mem
          · rw [g1]; exact h.pos_dom
          · rw [g2]; exact h.rank_nodup
          · rw [g2, g3]; exact h.rank_sub
          · rw [g2, g1]; exact h.rank_done
          · exact g4
        · rw [roll_tomoves s v hp hd hsix hvalid]
          refine ⟨h.players_eq, h.cur_mem, h.pos_dom, h.rank_nodup,
            h.rank_sub, h.rank_done, ?_, ?_⟩
          · intro hgg; cases hgg
          · intro _
            exact ⟨v, rfl, hv1, hv6, rfl, hvalid⟩
  · rw [roll_reject_phase s v hp]
    exact LudoInv.status s _ h

/-- Selecting a token preserves the invariant. -/
theorem inv_select (s : LudoState) (i : Fin 4) (h : LudoInv s) :
    LudoInv (selectToken s i) := by
  by_cases hp : s.gameState = .playerHasToSelectAPosition
  · obtain ⟨v, hd, hv1, hv6, hvalid, hne⟩ := h.select_inv hp
    by_cases hm : i ∈ s.validTokenIndices
    · have hmem := (mem_getValidMoves s.tokenPositions s.currentPiece v i).mp
        (by rw [← hvalid]; exact hm)
      have hleg1 : s.tokenPositions s.currentPiece i = -1 → v = 6 := by
        intro hh
        rcases hmem.2 with ⟨_, h6⟩ | ⟨hnn, _⟩
        · exact h6
        · exact absurd hh hnn
      have hleg2 : s.tokenPositions s.currentPiece i ≠ -1 →
          s.tokenPositions s.currentPiece i + (v : Int) ≤ 56 := by
        intro hh
        rcases hmem.2 with ⟨heq, _⟩ | ⟨_, hle⟩
        · exact absurd heq hh
        · exact hle
      rw [selectToken_success s i v hp hd hm hleg1 hleg2]
      have hnp : 0 ≤ movedPos s i v ∧ movedPos s i v ≤ 56 := by
        unfold movedPos
        by_cases hh : s.tokenPositions s.currentPiece i = -1
        · rw [if_pos hh]; omega
        · rw [if_neg hh]
          rcases h.pos_dom s.currentPiece i with hx | hx
          · exact absurd hx hh
          · have hle := hleg2 hh
            omega
      have hposd : ∀ c j, (postCapture s i v).1 c j = -1 ∨
          (0 ≤ (postCapture s i v).1 c j ∧
            (postCapture s i v).1 c j ≤ 56) := by
        intro c j
        rcases postCapture_entry s i v c j with he | he
        · rw [he]
          unfold setTok
          by_cases hji : c = s.currentPiece ∧ j = i
          · rw [if_pos hji]; right; exact hnp
          · rw [if_neg hji]; exact h.pos_dom c j
        · left; exact he.1
      have hcurnr : s.currentPiece ∉ s.ranking := fun hin =>
        hmem.1 (h.rank_done s.currentPiece hin i)
      have hrdone : ∀ c ∈ postRanking s i v, ∀ j,
          (postCapture s i v).1 c j = 56 := by
        intro c hc j
        by_cases hcond : movedPos s i v = 56 ∧
            ((List.finRange 4).all fun j =>
              (postCapture s i v).1 s.currentPiece j = 56) = true ∧
            s.currentPiece ∉ s.ranking
        · unfold postRanking at hc
          rw [if_pos hcond] at hc
          rcases List.mem_append.mp hc with hc | hc
          · have hcne : c ≠ s.currentPiece := fun he => hcurnr (he ▸ hc)
            apply postCapture_56
            rw [setTok_other _ _ _ _ _ _ fun hx => hcne hx.1]
            exact h.rank_done c hc j
          · have hceq : c = s.currentPiece := by simpa using hc
            subst hceq
            have hall := hcond.2.1
            rw [List.all_eq_true] at hall
            have := hall j (List.mem_finRange j)
            simpa using this
        · unfold postRanking at hc
          rw [if_neg hcond] at hc
          have hcne : c ≠ s.currentPiece := fun he => hcurnr (he ▸ hc)
          apply postCapture_56
          rw [setTok_other _ _ _ _ _ _ fun hx => hcne hx.1]
          exact h.rank_done c hc j
      have hrnodup : (postRanking s i v).Nodup := by
        unfold postRanking
        split
        · refine List.Nodup.append h.rank_nodup (List.nodup_singleton _) ?_
          intro a ha hb
          have hab : a = s.currentPiece := by simpa using hb
          exact hcurnr (hab ▸ ha)
        · exact h.rank_nodup
      have hrsub : ∀ c ∈ postRanking s i v, c ∈ s.players := by
        unfold postRanking
        split
        · intro c hc
          rcases List.mem_append.mp hc with hc | hc
          · exact h.rank_sub c hc
          · have hceq : c = s.currentPiece := by simpa using hc
            rw [hceq]; exact h.cur_mem
        · exact h.rank_sub
      obtain ⟨b1, b2, b3, b4, b5, b6, b7, b8, b9⟩ := selectBase_fields s i v
      have hAwait : (selectOutcome s i v).gameState = .playerHasToRollADice →
          (selectOutcome s i v).currentPiece = s.currentPiece →
          LudoInv (selectOutcome s i v) := by
        intro hg hc
        refine ⟨?_, ?_, ?_, ?_, ?_, ?_, ?_, ?_⟩
        · rw [selectOutcome_players]; exact h.players_eq
        · rw [hc, selectOutcome_players]; exact h.cur_mem
        · rw [selectOutcome_tokenPositions]; exact hposd
        · rw [selectOutcome_ranking]; exact hrnodup
        · rw [selectOutcome_ranking, selectOutcome_players]; exact hrsub
        · rw [selectOutcome_ranking, selectOutcome_tokenPositions]
          exact hrdone
        · intro _; rw [selectOutcome_dice]
        · intro hgg
          rw [hg] at hgg
          exact absurd hgg (by decide)
      rcases selectOutcome_turn s i v with ⟨hcap, hg, hc, hx⟩ |
        ⟨hz, h6, hg, hc, hx⟩ | ⟨hz, h6, heq⟩
      · exact hAwait hg hc
      · exact hAwait hg hc
      · rw [heq]
        apply inv_nextTurn
        · rw [b3]; exact h.players_eq
        · rw [b4, b3]; exact h.cur_mem
        · rw [b1]; exact hposd
        · rw [b2]; exact hrnodup
        · rw [b2, b3]; exact hrsub
        · rw [b2, b1]; exact hrdone
        · exact b5
    · rw [selectToken_reject_notmem s i v hp hd hm]
      exact LudoInv.status s _ h
  · rw [selectToken_reject_phase s i hp]
    exact LudoInv.status s _ h

/-- Every reachable state satisfies the invariant. -/
theorem inv_reachable (s : LudoState) (h : Reachable s) : LudoInv s := by
  induction h with
  | init n c hn hc => exact inv_init n c hn hc
  | roll s v _ hv1 hv6 ih => exact inv_roll s v hv1 hv6 ih
  | select s i _ ih => exact inv_select s i ih

/-- The running best of the `bestMove` scan stays inside any superset of
the scanned candidates. -/
theorem bestFold_mem (s : LudoState) (roll : Nat) (S : List (Fin 4)) :
    ∀ (l : List (Fin 4)), (∀ x ∈ l, x ∈ S) →
      ∀ (acc : Option ℚ × Fin 4), acc.2 ∈ S →
        (l.foldl (bestStep s roll) acc).2 ∈ S := by
  intro l
  induction l with
  | nil => exact fun _ acc h => h
  | cons a rest ih =>
    intro hsub acc hacc
    rw [List.foldl_cons]
    refine ih (fun x hx => hsub x (List.mem_cons_of_mem a hx)) _ ?_
    obtain ⟨ob, idx⟩ := acc
    unfold bestStep
    cases ob with
    | none => exact hsub a (List.mem_cons_self a rest)
    | some b =>
      show (if b < moveScore s roll a then (some (moveScore s roll a), a)
        else (some b, idx)).2 ∈ S
      by_cases hlt : b < moveScore s roll a
      · rw [if_pos hlt]
        exact hsub a (List.mem_cons_self a rest)
      · rw [if_neg hlt]
        exact hacc

/-- The method `bestMove` returns -1 or the index of a token from the legal-move set
of the pending roll. -/
theorem bestMove_mem_valid (s : LudoState) :
    bestMove s = -1 ∨
    (∃ (v : Nat) (i : Fin 4), s.currentDiceRoll = some v ∧
      i ∈ getValidMoves s.tokenPositions s.currentPiece v ∧
      bestMove s = (i.val : Int)) := by
  unfold bestMove
  split
  · left; rfl
  next ov roll hd =>
    split
    · left; rfl
    next v0 rest hv =>
      right
      refine ⟨roll, ((v0 :: rest).foldl (bestStep s roll) (none, v0)).2,
        hd, ?_, rfl⟩
      rw [hv]
      exact bestFold_mem s roll (v0 :: rest) (v0 :: rest) (fun x hx => hx)
        (none, v0) (List.mem_cons_self v0 rest)

/-- A token already at 56 is never moved or captured by `selectToken`. -/
theorem selectToken_keeps56 (s : LudoState) (h : LudoInv s) (c : Color)
    (i : Fin 4) (h56 : s.tokenPositions c i = 56) (j : Fin 4) :
    (selectToken s j).tokenPositions c i = 56 := by
  by_cases hp : s.gameState = .playerHasToSelectAPosition
  · obtain ⟨v, hd, hv1, hv6, hvalid, hne⟩ := h.select_inv hp
    by_cases hm : j ∈ s.validTokenIndices
    · have hmem := (mem_getValidMoves s.tokenPositions s.currentPiece v j).mp
        (by rw [← hvalid]; exact hm)
      have hleg1 : s.tokenPositions s.currentPiece j = -1 → v = 6 := by
        intro hh
        rcases hmem.2 with ⟨_, h6⟩ | ⟨hnn, _⟩
        · exact h6
        · exact absurd hh hnn
      have hleg2 : s.tokenPositions s.currentPiece j ≠ -1 →
          s.tokenPositions s.currentPiece j + (v : Int) ≤ 56 := by
        intro hh
        rcases hmem.2 with ⟨heq, _⟩ | ⟨_, hle⟩
        · exact absurd heq hh
        · exact hle
      rw [selectToken_success s j v hp hd hm hleg1 hleg2,
        selectOutcome_tokenPositions]
      apply postCapture_56
      have hji : ¬(c = s.currentPiece ∧ i = j) := by
        rintro ⟨hc, hi⟩
        exact hmem.1 (by rw [← hc, ← hi]; exact h56)
      rw [setTok_other _ _ _ _ _ _ hji]
      exact h56
    · rw [selectToken_reject_notmem s j v hp hd hm]
      exact h56
  · rw [selectToken_reject_phase s j hp]
    exact h56

/-! ## Reachability of the concrete scripted states -/

set_option maxRecDepth 1000000 in
theorem corner_reachable : Reachable cornerState :=
  reachable_runScript ludoStart bigScript
    (Reachable.init 2 Color.blue (by decide) (by decide)) (by decide)

set_option maxRecDepth 1000000 in
theorem preC4_reachable : Reachable preC4State :=
  reachable_runScript ludoStart c4Script
    (Reachable.init 2 Color.blue (by decide) (by decide)) (by decide)

/-! ## The claims -/

/-- C2: a token index is legally movable exactly when it is not at 56 and
either enters from home on a six or advances without overshooting 56; a
successful selection writes 0 for a token entering from home and `p + roll`
for a token on the track. -/
theorem C2_valid_moves (tp : TokenPositions) (color : Color) (roll : Nat)
    (i : Fin 4)
    (hdom : tp color i = -1 ∨ (0 ≤ tp color i ∧ tp color i ≤ 56)) :
    (i ∈ getValidMoves tp color roll ↔
      tp color i ≠ 56 ∧
        ((tp color i = -1 ∧ roll = 6) ∨
          (0 ≤ tp color i ∧ tp color i ≤ 55 ∧
            tp color i + (roll : Int) ≤ 56))) ∧
    (∀ (s : LudoState) (j : Fin 4),
      s.gameState = .playerHasToSelectAPosition →
      s.currentDiceRoll = some roll →
      j ∈ s.validTokenIndices →
      (s.tokenPositions s.currentPiece j = -1 → roll = 6) →
      (s.tokenPositions s.currentPiece j ≠ -1 →
        s.tokenPositions s.currentPiece j + (roll : Int) ≤ 56) →
      (selectToken s j).tokenPositions s.currentPiece j =
        if s.tokenPositions s.currentPiece j = -1 then 0
        else s.tokenPositions s.currentPiece j + (roll : Int)) := by
  constructor
  · rw [mem_getValidMoves]
    constructor
    · rintro ⟨h56, hcase⟩
      refine ⟨h56, ?_⟩
      rcases hcase with ⟨hh, h6⟩ | ⟨hh, hle⟩
      · exact Or.inl ⟨hh, h6⟩
      · rcases hdom with hd | hd
        · exact absurd hd hh
        · exact Or.inr ⟨hd.1, by omega, hle⟩
    · rintro ⟨h56, hcase⟩
      refine ⟨h56, ?_⟩
      rcases hcase with ⟨hh, h6⟩ | ⟨h0, h55, hle⟩
      · exact Or.inl ⟨hh, h6⟩
      · exact Or.inr ⟨by omega, hle⟩
  · intro s j hp hd hm hleg1 hleg2
    rw [selectToken_success s j roll hp hd hm hleg1 hleg2,
      selectOutcome_tokenPositions, postCapture_moving, setTok_same]
    rfl

set_option maxRecDepth 100000 in
/-- Witness for C2 at a fresh 2-player instance: with a rolled 6 every home
token is movable, and selecting token 0 moves it from home to 0. -/
theorem C2_witness :
    (initialTokenPositions Color.blue 0 = -1 ∨
      (0 ≤ initialTokenPositions Color.blue 0 ∧
        initialTokenPositions Color.blue 0 ≤ 56)) ∧
    (0 : Fin 4) ∈ getValidMoves initialTokenPositions Color.blue 6 ∧
    (selectToken (runScript ludoStart [Step.roll 6]) 0).tokenPositions
      (runScript ludoStart [Step.roll 6]).currentPiece 0 = 0 := by
  have h := C2_valid_moves initialTokenPositions Color.blue 6 0 (Or.inl rfl)
  refine ⟨Or.inl rfl, h.1.mpr (by decide), ?_⟩
  have h2 := h.2 (runScript ludoStart [Step.roll 6]) 0 (by decide) (by decide)
    (by decide) (fun _ => rfl) (by decide)
  rw [h2]
  decide

/-- C10: in the roll phase no dice value is pending; in the selection phase
a dice value is pending, the legal-move set is non-empty, and selecting any
of its members succeeds (it consumes the pending roll). -/
theorem C10_phase_dice (s : LudoState) (h : Reachable s) :
    (s.gameState = .playerHasToRollADice → s.currentDiceRoll = none) ∧
    (s.gameState = .playerHasToSelectAPosition →
      s.currentDiceRoll ≠ none ∧ s.validTokenIndices ≠ [] ∧
      ∀ i ∈ s.validTokenIndices,
        (selectToken s i).currentDiceRoll = none) := by
  have hi := inv_reachable s h
  refine ⟨hi.dice_await, fun hp => ?_⟩
  obtain ⟨v, hd, hv1, hv6, hvalid, hne⟩ := hi.select_inv hp
  refine ⟨by rw [hd]; simp, hne, ?_⟩
  intro i hm
  have hmem := (mem_getValidMoves s.tokenPositions s.currentPiece v i).mp
    (by rw [← hvalid]; exact hm)
  have hleg1 : s.tokenPositions s.currentPiece i = -1 → v = 6 := by
    intro hh
    rcases hmem.2 with ⟨_, h6⟩ | ⟨hnn, _⟩
    · exact h6
    · exact absurd hh hnn
  have hleg2 : s.tokenPositions s.currentPiece i ≠ -1 →
      s.tokenPositions s.currentPiece i + (v : Int) ≤ 56 := by
    intro hh
    rcases hmem.2 with ⟨heq, _⟩ | ⟨_, hle⟩
    · exact absurd heq hh
    · exact hle
  rw [selectToken_success s i v hp hd hm hleg1 hleg2]
  exact selectOutcome_dice s i v

set_option maxRecDepth 100000 in
/-- Witness for C10 at the reachable state after one rolled 6. -/
theorem C10_witness :
    Reachable (runScript ludoStart [Step.roll 6]) ∧
    ((runScript ludoStart [Step.roll 6]).gameState =
        .playerHasToRollADice →
      (runScript ludoStart [Step.roll 6]).currentDiceRoll = none) ∧
    ((runScript ludoStart [Step.roll 6]).gameState =
        .playerHasToSelectAPosition →
      (runScript ludoStart [Step.roll 6]).currentDiceRoll ≠ none ∧
      (runScript ludoStart [Step.roll 6]).validTokenIndices ≠ [] ∧
      ∀ i ∈ (runScript ludoStart [Step.roll 6]).validTokenIndices,
        (selectToken (runScript ludoStart [Step.roll 6]) i).currentDiceRoll =
          none) := by
  have hr : Reachable (runScript ludoStart [Step.roll 6]) :=
    reachable_runScript ludoStart [Step.roll 6]
      (Reachable.init 2 Color.blue (by decide) (by decide)) (by decide)
  exact ⟨hr, C10_phase_dice _ hr⟩

/-- C1: every token position of every color lies in -1 or [0, 56] in every
reachable state, and a token at 56 stays at 56 across every operation: a
roll never moves tokens, a selection never moves or captures it, and
`bestMove` never picks it. -/
theorem C1_position_domain (s : LudoState) (h : Reachable s) :
    (∀ c i, s.tokenPositions c i = -1 ∨
      (0 ≤ s.tokenPositions c i ∧ s.tokenPositions c i ≤ 56)) ∧
    (∀ c i, s.tokenPositions c i = 56 →
      (∀ v, (rollDiceForCurrentPiece s v).1.tokenPositions c i = 56) ∧
      (∀ j, (selectToken s j).tokenPositions c i = 56) ∧
      (c = s.currentPiece → bestMove s ≠ (i.val : Int))) := by
  have hi := inv_reachable s h
  refine ⟨hi.pos_dom, fun c i h56 => ⟨?_, ?_, ?_⟩⟩
  · intro v; rw [roll_tokenPositions]; exact h56
  · intro j; exact selectToken_keeps56 s hi c i h56 j
  · intro hc hbest
    rcases bestMove_mem_valid s with hb | ⟨v, j, hd, hjm, hb⟩
    · rw [hb] at hbest
      omega
    · rw [hb] at hbest
      have hji : j = i := Fin.val_injective (by omega)
      subst hji
      have hmem := (mem_getValidMoves s.tokenPositions s.currentPiece v j).mp
        hjm
      rw [hc] at h56
      exact hmem.1 h56

set_option maxRecDepth 1000000 in
/-- Witness for C1 at a reachable state in which tokens sit at 56. -/
theorem C1_witness :
    Reachable cornerState ∧ cornerState.tokenPositions Color.green 0 = 56 ∧
    (∀ c i, cornerState.tokenPositions c i = -1 ∨
      (0 ≤ cornerState.tokenPositions c i ∧
        cornerState.tokenPositions c i ≤ 56)) ∧
    (∀ c i, cornerState.tokenPositions c i = 56 →
      (∀ v, (rollDiceForCurrentPiece cornerState v).1.tokenPositions c i =
        56) ∧
      (∀ j, (selectToken cornerState j).tokenPositions c i = 56) ∧
      (c = cornerState.currentPiece →
        bestMove cornerState ≠ (i.val : Int))) := by
  have h := C1_position_domain cornerState corner_reachable
  exact ⟨corner_reachable, by decide, h.1, h.2⟩

/-- The `isSafeZone` flag that `reset` writes on a board cell: some active
color's path visits the coordinate at a declared safe index or at its
start index 0. -/
def isSafeZoneFlag (players : List Color) (coord : Int × Int) : Prop :=
  ∃ c ∈ players, ∃ k : Fin 57,
    (colorPaths c).getD k.val (0, 0) = coord ∧
      ((k.val : Int) ∈ safeZones ∨ k.val = 0)

instance : ∀ players coord, Decidable (isSafeZoneFlag players coord) :=
  fun players coord => by unfold isSafeZoneFlag; infer_instance

set_option maxRecDepth 1000000 in
set_option maxHeartbeats 12000000 in
/-- C9: where two distinct colors' paths meet on the board, their indices
agree on being safe zones; home-stretch coordinates (indices 51-56) are
exclusive to their color; hence the index-based safe-zone test agrees with
the cell's `isSafeZone` flag for every active player set. -/
theorem C9_path_geometry :
    (∀ (A B : Color), A ≠ B → ∀ (i j : Fin 57),
      (colorPaths A).getD i.val (0, 0) = (colorPaths B).getD j.val (0, 0) →
      (((i.val : Int) ∈ safeZones) ↔ ((j.val : Int) ∈ safeZones))) ∧
    (∀ (A B : Color), A ≠ B → ∀ (i : Fin 57), 51 ≤ i.val →
      ∀ (j : Fin 57),
        (colorPaths A).getD i.val (0, 0) ≠
          (colorPaths B).getD j.val (0, 0)) := by
  constructor
  · decide
  · decide

set_option maxHeartbeats 1000000 in
set_option maxRecDepth 1000000 in
/-- Witness for C9: red's index 13 and green's index 0 share a board cell
and are both safe. -/
theorem C9_witness :
    Color.red ≠ Color.green ∧
    (colorPaths Color.red).getD (13 : Fin 57).val (0, 0) =
      (colorPaths Color.green).getD (0 : Fin 57).val (0, 0) ∧
    ((((13 : Fin 57).val : Int) ∈ safeZones) ↔
      (((0 : Fin 57).val : Int) ∈ safeZones)) := by
  refine ⟨by decide, by decide, ?_⟩
  exact C9_path_geometry.1 Color.red Color.green (by decide) 13 0 (by decide)

/-- The reachable selection-phase state after one rolled 6. -/
def pendingState : LudoState := runScript ludoStart [Step.roll 6]

set_option maxRecDepth 100000 in
/-- C8 as stated is false: at the reachable selection-phase state after one
rolled 6 the pending value is 6, yet a repeated roll call returns -1 (the
phase check fires before the pending-roll check). -/
theorem C8_counterexample :
    Reachable pendingState ∧
    pendingState.currentDiceRoll = some 6 ∧
    (rollDiceForCurrentPiece pendingState 1).2 = -1 := by
  refine ⟨reachable_runScript _ _
    (Reachable.init 2 Color.blue (by decide) (by decide)) (by decide),
    by decide⟩

/-- C8 (amended): in every reachable state with a pending roll the phase is
the selection phase, so the call is rejected by the phase check: it returns
-1 (not the pending value) and changes nothing but the status text. -/
theorem C8_amended (s : LudoState) (h : Reachable s) (p : Nat)
    (hpend : s.currentDiceRoll = some p) (v : Nat) :
    (rollDiceForCurrentPiece s v).2 = -1 ∧
    (rollDiceForCurrentPiece s v).1 =
      { s with
        currentBoardStatus :=
          "Invalid action. Current state: " ++ gameStateName s.gameState ++
            "." } := by
  have hi := inv_reachable s h
  have hgs : s.gameState ≠ .playerHasToRollADice := by
    intro hg
    rw [hi.dice_await hg] at hpend
    cases hpend
  rw [roll_reject_phase s v hgs]
  exact ⟨rfl, rfl⟩

set_option maxRecDepth 100000 in
/-- Witness for the amended C8 at the state after one rolled 6. -/
theorem C8_witness :
    Reachable pendingState ∧
    pendingState.currentDiceRoll = some 6 ∧
    (rollDiceForCurrentPiece pendingState 1).2 = -1 ∧
    (rollDiceForCurrentPiece pendingState 1).1 =
      { pendingState with
        currentBoardStatus :=
          "Invalid action. Current state: " ++
            gameStateName pendingState.gameState ++ "." } := by
  have hr : Reachable pendingState :=
    reachable_runScript _ _
      (Reachable.init 2 Color.blue (by decide) (by decide)) (by decide)
  have h := C8_amended _ hr 6 (by decide) 1
  exact ⟨hr, by decide, h.1, h.2⟩

/-- The step `nextTurn` after clearing the turn state, when not every color is
ranked: the phase returns to the roll phase for the cyclically next color
with the six-counter reset. -/
theorem nextTurn_reset_fields (x : LudoState)
    (hrank : x.ranking.length < x.players.length) :
    (nextTurn (resetTurnState x false)).currentDiceRoll = none ∧
    (nextTurn (resetTurnState x false)).validTokenIndices = [] ∧
    (nextTurn (resetTurnState x false)).gameState =
      .playerHasToRollADice ∧
    (nextTurn (resetTurnState x false)).currentPiece =
      nextColorAfter x.players x.currentPiece ∧
    (nextTurn (resetTurnState x false)).currentConsecutiveSixes = 0 := by
  obtain ⟨g1, g2, g3, g4, g5, g6, g7, g8, g9⟩ := resetTurnState_fields x
  rcases nextTurn_cases (resetTurnState x false) with ⟨hle, _, _, _⟩ |
    ⟨hlt, hg, hc, hz⟩
  · rw [g2, g3] at hle
    omega
  · obtain ⟨f1, f2, f3, f4, f5, f6⟩ := nextTurn_fields (resetTurnState x false)
    exact ⟨by rw [f4, g4], by rw [f5, g5], hg, by rw [hc, g3, g8], hz⟩

set_option maxRecDepth 1000000 in
/-- C7 as stated is false at the reachable corner state in which the last
color finished on its second consecutive six: the ranking is already full,
so the forfeited turn ends the game instead of advancing to the next color
and resetting the counter. -/
theorem C7_counterexample :
    Reachable cornerState ∧
    cornerState.gameState = .playerHasToRollADice ∧
    cornerState.currentConsecutiveSixes = 2 ∧
    cornerState.currentPiece = Color.green ∧
    nextColorAfter cornerState.players cornerState.currentPiece =
      Color.blue ∧
    (rollDiceForCurrentPiece cornerState 6).1.currentPiece = Color.green ∧
    (rollDiceForCurrentPiece cornerState 6).1.currentConsecutiveSixes =
      3 ∧
    (rollDiceForCurrentPiece cornerState 6).1.gameState =
      .gameFinished := by
  exact ⟨corner_reachable, by decide⟩

/-- C7 (amended): in a reachable roll-phase state with six-counter 2 and
the ranking not yet full, rolling a third 6 forfeits the turn: dice
cleared, no legal moves computed, no selection phase, the next color
becomes current with the six-counter reset to 0. -/
theorem C7_amended (s : LudoState) (h : Reachable s)
    (hp : s.gameState = .playerHasToRollADice)
    (hsix : s.currentConsecutiveSixes = 2)
    (hrank : s.ranking.length < s.players.length) :
    (rollDiceForCurrentPiece s 6).2 = 6 ∧
    (rollDiceForCurrentPiece s 6).1.currentDiceRoll = none ∧
    (rollDiceForCurrentPiece s 6).1.validTokenIndices = [] ∧
    (rollDiceForCurrentPiece s 6).1.gameState = .playerHasToRollADice ∧
    (rollDiceForCurrentPiece s 6).1.currentPiece =
      nextColorAfter s.players s.currentPiece ∧
    (rollDiceForCurrentPiece s 6).1.currentConsecutiveSixes = 0 := by
  have hi := inv_reachable s h
  have hd := hi.dice_await hp
  have hskip := roll_skip s 6 hp hd rfl (by omega)
  rw [hskip]
  obtain ⟨k1, k2, k3, k4, k5⟩ := nextTurn_reset_fields
    { s with
      currentDiceRoll := some 6
      lastDiceRoll := some 6
      currentConsecutiveSixes := s.currentConsecutiveSixes + 1
      currentBoardStatus := "Three consecutive sixes! Turn skipped for " ++
        colorName s.currentPiece ++ "." } hrank
  exact ⟨rfl, k1, k2, k3, k4, k5⟩

/-- The reachable state after blue rolls and plays two sixes in a row. -/
def sixSixState : LudoState :=
  runScript ludoStart
    [Step.roll 6, Step.select 0, Step.roll 6, Step.select 0]

set_option maxRecDepth 1000000 in
/-- Witness for the amended C7 at a counter-2 state with an unfilled
ranking. -/
theorem C7_witness :
    Reachable sixSixState ∧
    sixSixState.gameState = .playerHasToRollADice ∧
    sixSixState.currentConsecutiveSixes = 2 ∧
    sixSixState.ranking.length < sixSixState.players.length ∧
    (rollDiceForCurrentPiece sixSixState 6).2 = 6 ∧
    (rollDiceForCurrentPiece sixSixState 6).1.currentDiceRoll = none ∧
    (rollDiceForCurrentPiece sixSixState 6).1.validTokenIndices = [] ∧
    (rollDiceForCurrentPiece sixSixState 6).1.gameState =
      .playerHasToRollADice ∧
    (rollDiceForCurrentPiece sixSixState 6).1.currentPiece =
      nextColorAfter sixSixState.players sixSixState.currentPiece ∧
    (rollDiceForCurrentPiece sixSixState 6).1.currentConsecutiveSixes =
      0 := by
  have hr : Reachable sixSixState :=
    reachable_runScript _ _
      (Reachable.init 2 Color.blue (by decide) (by decide)) (by decide)
  have h := C7_amended sixSixState hr (by decide) (by decide) (by decide)
  exact ⟨hr, by decide, by decide, by decide, h.1, h.2.1, h.2.2.1,
    h.2.2.2.1, h.2.2.2.2.1, h.2.2.2.2.2⟩

set_option maxRecDepth 1000000 in
/-- C6 as stated is false: at the reachable corner state the ranking
contains every active color, yet the phase is still the roll phase and a
roll call succeeds (it returns the rolled value and records it). -/
theorem C6_counterexample :
    Reachable cornerState ∧
    (∀ c ∈ cornerState.players, c ∈ cornerState.ranking) ∧
    cornerState.ranking.length = cornerState.players.length ∧
    cornerState.gameState ≠ .gameFinished ∧
    (rollDiceForCurrentPiece cornerState 1).2 = 1 ∧
    (rollDiceForCurrentPiece cornerState 1).1.lastDiceRoll = some 1 := by
  exact ⟨corner_reachable, by decide⟩

/-- C6 (amended): with a full ranking the phase is `Finished` or (when the
final color finished on a six or a capture and kept the turn) the roll
phase; in the `Finished` phase every roll and select call is rejected
without touching positions, dice, or ranking. -/
theorem C6_amended (s : LudoState) (h : Reachable s)
    (hfull : ∀ c ∈ s.players, c ∈ s.ranking) :
    (s.gameState = .gameFinished ∨
      s.gameState = .playerHasToRollADice) ∧
    (s.gameState = .gameFinished →
      ∀ (v : Nat) (i : Fin 4),
        (rollDiceForCurrentPiece s v).1.tokenPositions =
          s.tokenPositions ∧
        (rollDiceForCurrentPiece s v).1.ranking = s.ranking ∧
        (rollDiceForCurrentPiece s v).1.currentDiceRoll =
          s.currentDiceRoll ∧
        (rollDiceForCurrentPiece s v).2 = -1 ∧
        (selectToken s i).tokenPositions = s.tokenPositions ∧
        (selectToken s i).ranking = s.ranking ∧
        (selectToken s i).currentDiceRoll = s.currentDiceRoll) := by
  have hi := inv_reachable s h
  constructor
  · by_cases hg : s.gameState = .playerHasToSelectAPosition
    · exfalso
      obtain ⟨v, hd, hv1, hv6, hvalid, hne⟩ := hi.select_inv hg
      have hcur : s.currentPiece ∈ s.ranking := hfull _ hi.cur_mem
      have hdone := hi.rank_done _ hcur
      have hvempty : getValidMoves s.tokenPositions s.currentPiece v =
          [] := by
        unfold getValidMoves
        rw [List.filter_eq_nil_iff]
        intro a _
        rw [hdone a]
        simp
      rw [hvempty] at hvalid
      exact hne hvalid
    · cases hgs : s.gameState with
      | playerHasToRollADice => exact Or.inr rfl
      | playerHasToSelectAPosition => exact absurd hgs hg
      | gameFinished => exact Or.inl rfl
  · intro hg v i
    have hg2 : s.gameState ≠ .playerHasToRollADice := by
      rw [hg]; decide
    have hg3 : s.gameState ≠ .playerHasToSelectAPosition := by
      rw [hg]; decide
    rw [roll_reject_phase s v hg2, selectToken_reject_phase s i hg3]
    exact ⟨rfl, rfl, rfl, rfl, rfl, rfl, rfl⟩

/-- The finished reachable state: the last color completes on a non-six. -/
def finishedState : LudoState := selectToken preC4State 3

set_option maxRecDepth 1000000 in
/-- Witness for the amended C6 at the finished state. -/
theorem C6_witness :
    Reachable finishedState ∧
    (∀ c ∈ finishedState.players, c ∈ finishedState.ranking) ∧
    (finishedState.gameState = .gameFinished ∨
      finishedState.gameState = .playerHasToRollADice) ∧
    (finishedState.gameState = .gameFinished →
      ∀ (v : Nat) (i : Fin 4),
        (rollDiceForCurrentPiece finishedState v).1.tokenPositions =
          finishedState.tokenPositions ∧
        (rollDiceForCurrentPiece finishedState v).1.ranking =
          finishedState.ranking ∧
        (rollDiceForCurrentPiece finishedState v).1.currentDiceRoll =
          finishedState.currentDiceRoll ∧
        (rollDiceForCurrentPiece finishedState v).2 = -1 ∧
        (selectToken finishedState i).tokenPositions =
          finishedState.tokenPositions ∧
        (selectToken finishedState i).ranking = finishedState.ranking ∧
        (selectToken finishedState i).currentDiceRoll =
          finishedState.currentDiceRoll) := by
  have hr : Reachable finishedState :=
    Reachable.select preC4State 3 preC4_reachable
  have hfull : ∀ c ∈ finishedState.players, c ∈ finishedState.ranking := by
    decide
  have h := C6_amended finishedState hr hfull
  exact ⟨hr, hfull, h.1, h.2⟩

set_option maxRecDepth 1000000 in
/-- C4 as stated is false at the reachable state about to finish the whole
game: a capture-free non-six selection ends the game in place instead of
advancing the turn (phase `Finished`, same color). -/
theorem C4_counterexample :
    Reachable preC4State ∧
    preC4State.gameState = .playerHasToSelectAPosition ∧
    preC4State.currentDiceRoll = some 5 ∧
    (3 : Fin 4) ∈ preC4State.validTokenIndices ∧
    preC4State.tokenPositions preC4State.currentPiece 3 = 51 ∧
    (selectToken preC4State 3).tokenPositions preC4State.currentPiece 3 =
      56 ∧
    (selectToken preC4State 3).currentDiceRoll = none ∧
    (postCapture preC4State 3 5).2 = 0 ∧
    (selectToken preC4State 3).gameState = .gameFinished ∧
    (selectToken preC4State 3).currentPiece = preC4State.currentPiece := by
  exact ⟨preC4_reachable, by decide⟩

/-- C4 (amended): after a successful selection, a capture keeps the color
and phase `AwaitingRoll` with the six-counter preserved; so does a consumed
six; a capture-free non-six selection advances to the next color with the
counter reset — unless the move completed the full ranking, in which case
the phase becomes `Finished` with the color unchanged. -/
theorem C4_amended (s : LudoState) (i : Fin 4) (roll : Nat)
    (hp : s.gameState = .playerHasToSelectAPosition)
    (hd : s.currentDiceRoll = some roll)
    (hm : i ∈ s.validTokenIndices)
    (hleg1 : s.tokenPositions s.currentPiece i = -1 → roll = 6)
    (hleg2 : s.tokenPositions s.currentPiece i ≠ -1 →
      s.tokenPositions s.currentPiece i + (roll : Int) ≤ 56) :
    (0 < (postCapture s i roll).2 →
      (selectToken s i).currentPiece = s.currentPiece ∧
      (selectToken s i).gameState = .playerHasToRollADice ∧
      (selectToken s i).currentConsecutiveSixes =
        s.currentConsecutiveSixes) ∧
    ((postCapture s i roll).2 = 0 → roll = 6 →
      (selectToken s i).currentPiece = s.currentPiece ∧
      (selectToken s i).gameState = .playerHasToRollADice ∧
      (selectToken s i).currentConsecutiveSixes =
        s.currentConsecutiveSixes) ∧
    ((postCapture s i roll).2 = 0 → roll ≠ 6 →
      ((postRanking s i roll).length < s.players.length →
        (selectToken s i).currentPiece =
          nextColorAfter s.players s.currentPiece ∧
        (selectToken s i).gameState = .playerHasToRollADice ∧
        (selectToken s i).currentConsecutiveSixes = 0) ∧
      (s.players.length ≤ (postRanking s i roll).length →
        (selectToken s i).gameState = .gameFinished ∧
        (selectToken s i).currentPiece = s.currentPiece)) := by
  rw [selectToken_success s i roll hp hd hm hleg1 hleg2]
  obtain ⟨b1, b2, b3, b4, b5, b6, b7, b8, b9⟩ := selectBase_fields s i roll
  rcases selectOutcome_turn s i roll with ⟨hcap, hg, hc, hx⟩ |
    ⟨hz, h6, hg, hc, hx⟩ | ⟨hz, h6, heq⟩
  · exact ⟨fun _ => ⟨hc, hg, hx⟩, fun hzz _ => by omega,
      fun hzz _ => by omega⟩
  · exact ⟨fun hcc => by omega, fun _ _ => ⟨hc, hg, hx⟩,
      fun _ h66 => absurd h6 h66⟩
  · refine ⟨fun hcc => by omega, fun _ h66 => absurd h66 h6,
      fun _ _ => ?_⟩
    rw [heq]
    constructor
    · intro hlt
      rcases nextTurn_cases (selectBase s i roll) with ⟨hle, _, _, _⟩ |
        ⟨hlt2, hg2, hc2, hz2⟩
      · rw [b2, b3] at hle
        omega
      · exact ⟨by rw [hc2, b3, b4], hg2, hz2⟩
    · intro hge
      rcases nextTurn_cases (selectBase s i roll) with ⟨hle, hg2, hc2, _⟩ |
        ⟨hlt2, _, _, _⟩
      · exact ⟨hg2, by rw [hc2, b4]⟩
      · rw [b2, b3] at hlt2
        omega

set_option maxRecDepth 100000 in
/-- Witness for the amended C4: entering on a six keeps the turn. -/
theorem C4_witness :
    pendingState.gameState = .playerHasToSelectAPosition ∧
    pendingState.currentDiceRoll = some 6 ∧
    (0 : Fin 4) ∈ pendingState.validTokenIndices ∧
    (postCapture pendingState 0 6).2 = 0 ∧
    (selectToken pendingState 0).currentPiece =
      pendingState.currentPiece ∧
    (selectToken pendingState 0).gameState = .playerHasToRollADice ∧
    (selectToken pendingState 0).currentConsecutiveSixes =
      pendingState.currentConsecutiveSixes := by
  have h := C4_amended pendingState 0 6 (by decide) (by decide) (by decide)
    (fun _ => rfl) (by decide)
  have hz : (postCapture pendingState 0 6).2 = 0 := by decide
  obtain ⟨hc, hg, hx⟩ := h.2.1 hz rfl
  exact ⟨by decide, by decide, by decide, hz, hc, hg, hx⟩

/-- In the selection phase the chosen member of the legal-move set
satisfies the legality side conditions of `selectToken`. -/
theorem select_legal (s : LudoState) (h : LudoInv s)
    (hp : s.gameState = .playerHasToSelectAPosition)
    (v : Nat) (hd : s.currentDiceRoll = some v)
    (i : Fin 4) (hm : i ∈ s.validTokenIndices) :
    (s.tokenPositions s.currentPiece i = -1 → v = 6) ∧
    (s.tokenPositions s.currentPiece i ≠ -1 →
      s.tokenPositions s.currentPiece i + (v : Int) ≤ 56) ∧
    s.tokenPositions s.currentPiece i ≠ 56 := by
  obtain ⟨v', hd', hv1, hv6, hvalid, hne⟩ := h.select_inv hp
  rw [hd] at hd'
  injection hd' with hvv
  subst hvv
  have hmem := (mem_getValidMoves s.tokenPositions s.currentPiece v i).mp
    (by rw [← hvalid]; exact hm)
  refine ⟨?_, ?_, hmem.1⟩
  · intro hh
    rcases hmem.2 with ⟨_, h6⟩ | ⟨hnn, _⟩
    · exact h6
    · exact absurd hh hnn
  · intro hh
    rcases hmem.2 with ⟨heq, _⟩ | ⟨_, hle⟩
    · exact absurd heq hh
    · exact hle

/-- C5: rankings only ever grow by appending the mover: rolls never change
the ranking; a selection leaves the ranking unchanged or appends the
current color, and it appends exactly when the selected move is legal,
lands on 56, leaves all four of the mover's tokens at 56 and the mover is
not yet ranked; rankings of reachable states never contain a color
twice. -/
theorem C5_ranking (s : LudoState) (h : Reachable s) :
    s.ranking.Nodup ∧
    (∀ v, (rollDiceForCurrentPiece s v).1.ranking = s.ranking) ∧
    (∀ i : Fin 4, (selectToken s i).ranking = s.ranking ∨
      ((selectToken s i).ranking = s.ranking ++ [s.currentPiece] ∧
        s.currentPiece ∉ s.ranking ∧
        (∃ v, s.currentDiceRoll = some v ∧ i ∈ s.validTokenIndices ∧
          s.gameState = .playerHasToSelectAPosition ∧
          movedPos s i v = 56) ∧
        (∀ j, (selectToken s i).tokenPositions s.currentPiece j = 56))) ∧
    (∀ (i : Fin 4) (v : Nat),
      s.gameState = .playerHasToSelectAPosition →
      s.currentDiceRoll = some v → i ∈ s.validTokenIndices →
      movedPos s i v = 56 →
      (∀ j, j ≠ i → s.tokenPositions s.currentPiece j = 56) →
      s.currentPiece ∉ s.ranking →
      (selectToken s i).ranking = s.ranking ++ [s.currentPiece]) := by
  have hi := inv_reachable s h
  refine ⟨hi.rank_nodup, fun v => roll_ranking s v, ?_, ?_⟩
  · intro i
    by_cases hp : s.gameState = .playerHasToSelectAPosition
    · cases hd : s.currentDiceRoll with
      | none => rw [selectToken_reject_nodice s i hp hd]; exact Or.inl rfl
      | some v =>
        by_cases hm : i ∈ s.validTokenIndices
        · obtain ⟨hleg1, hleg2, h56⟩ := select_legal s hi hp v hd i hm
          rw [selectToken_success s i v hp hd hm hleg1 hleg2,
            selectOutcome_ranking, selectOutcome_tokenPositions]
          by_cases hcond : movedPos s i v = 56 ∧
              ((List.finRange 4).all fun j =>
                (postCapture s i v).1 s.currentPiece j = 56) = true ∧
              s.currentPiece ∉ s.ranking
          · right
            unfold postRanking
            rw [if_pos hcond]
            refine ⟨rfl, hcond.2.2, ⟨v, rfl, hm, hp, hcond.1⟩, ?_⟩
            intro j
            have hall := hcond.2.1
            rw [List.all_eq_true] at hall
            have := hall j (List.mem_finRange j)
            simpa using this
          · left
            unfold postRanking
            rw [if_neg hcond]
        · rw [selectToken_reject_notmem s i v hp hd hm]; exact Or.inl rfl
    · rw [selectToken_reject_phase s i hp]; exact Or.inl rfl
  · intro i v hp hd hm hfin hothers hnr
    have hleg1 : s.tokenPositions s.currentPiece i = -1 → v = 6 := by
      intro hh
      exfalso
      unfold movedPos at hfin
      rw [if_pos hh] at hfin
      cases hfin
    have hnhome : s.tokenPositions s.currentPiece i ≠ -1 := by
      intro hh
      unfold movedPos at hfin
      rw [if_pos hh] at hfin
      cases hfin
    have hleg2 : s.tokenPositions s.currentPiece i ≠ -1 →
        s.tokenPositions s.currentPiece i + (v : Int) ≤ 56 := by
      intro hh
      unfold movedPos at hfin
      rw [if_neg hh] at hfin
      omega
    rw [selectToken_success s i v hp hd hm hleg1 hleg2,
      selectOutcome_ranking]
    unfold postRanking
    rw [if_pos ?_]
    refine ⟨hfin, ?_, hnr⟩
    rw [List.all_eq_true]
    intro j _
    rw [decide_eq_true_eq, postCapture_moving]
    by_cases hji : j = i
    · subst hji
      rw [setTok_same]
      exact hfin
    · rw [setTok_other _ _ _ _ _ _ fun hx => hji hx.2]
      exact hothers j hji

set_option maxRecDepth 1000000 in
/-- Witness for C5 at the finished reachable state. -/
theorem C5_witness :
    Reachable finishedState ∧ finishedState.ranking.Nodup ∧
    (∀ v, (rollDiceForCurrentPiece finishedState v).1.ranking =
      finishedState.ranking) := by
  have hr : Reachable finishedState :=
    Reachable.select preC4State 3 preC4_reachable
  have h := C5_ranking finishedState hr
  exact ⟨hr, h.1, h.2.1⟩

theorem capturedAt_iff (tp : TokenPositions) (dest : Int × Int) (c : Color)
    (j : Fin 4) :
    capturedAt tp dest c j ↔
      (0 ≤ tp c j ∧ tp c j ≠ 56 ∧
        (colorPaths c).getD (tp c j).toNat (0, 0) = dest) := by
  unfold capturedAt
  constructor
  · rintro ⟨h1, h2⟩
    exact ⟨by omega, by omega, h2⟩
  · rintro ⟨h0, h56, hc⟩
    exact ⟨by omega, hc⟩

theorem sum_map_if_eq_filter (players : List Color) (moving : Color)
    (g : Color → Nat) :
    (players.map fun c => if c = moving then 0 else g c).sum =
      ((players.filter fun c => c ≠ moving).map g).sum := by
  induction players with
  | nil => rfl
  | cons a rest ih =>
    rw [List.map_cons, List.sum_cons, ih]
    by_cases ha : a = moving
    · rw [if_pos ha, List.filter_cons]
      simp [ha]
    · rw [if_neg ha, List.filter_cons]
      simp [ha]

/-- C3: a move landing on 56 or on a safe-zone index skips capture
resolution entirely (no opponent token moves); any other successful move
sends home exactly the active opponents' tokens that are on the track (not
-1, not 56) and whose own-path coordinate equals the mover's destination
coordinate, the capture count equals the number of such tokens, and a
nonzero count keeps the turn with phase `AwaitingRoll`. -/
theorem C3_capture_resolution (s : LudoState) (i : Fin 4) (roll : Nat)
    (hp : s.gameState = .playerHasToSelectAPosition)
    (hd : s.currentDiceRoll = some roll)
    (hm : i ∈ s.validTokenIndices)
    (hleg1 : s.tokenPositions s.currentPiece i = -1 → roll = 6)
    (hleg2 : s.tokenPositions s.currentPiece i ≠ -1 →
      s.tokenPositions s.currentPiece i + (roll : Int) ≤ 56)
    (hnd : s.players.Nodup) :
    (movedPos s i roll = 56 ∨ movedPos s i roll ∈ safeZones →
      ∀ c, c ≠ s.currentPiece → ∀ j,
        (selectToken s i).tokenPositions c j = s.tokenPositions c j) ∧
    (¬(movedPos s i roll = 56 ∨ movedPos s i roll ∈ safeZones) →
      (∀ c ∈ s.players, c ≠ s.currentPiece → ∀ j,
        (selectToken s i).tokenPositions c j =
          if 0 ≤ s.tokenPositions c j ∧ s.tokenPositions c j ≠ 56 ∧
              (colorPaths c).getD (s.tokenPositions c j).toNat (0, 0) =
                (colorPaths s.currentPiece).getD
                  (movedPos s i roll).toNat (0, 0)
          then -1 else s.tokenPositions c j) ∧
      (∀ c, c ∉ s.players → c ≠ s.currentPiece → ∀ j,
        (selectToken s i).tokenPositions c j = s.tokenPositions c j) ∧
      (postCapture s i roll).2 =
        ((s.players.filter fun c => c ≠ s.currentPiece).map fun c =>
          ((List.finRange 4).filter fun j =>
            0 ≤ s.tokenPositions c j ∧ s.tokenPositions c j ≠ 56 ∧
              (colorPaths c).getD (s.tokenPositions c j).toNat (0, 0) =
                (colorPaths s.currentPiece).getD
                  (movedPos s i roll).toNat (0, 0)).length).sum) ∧
    (0 < (postCapture s i roll).2 →
      (selectToken s i).currentPiece = s.currentPiece ∧
      (selectToken s i).gameState = .playerHasToRollADice) := by
  have hsel := selectToken_success s i roll hp hd hm hleg1 hleg2
  refine ⟨?_, ?_, ?_⟩
  · intro hskip c hc j
    rw [hsel, selectOutcome_tokenPositions]
    have hno : ¬(movedPos s i roll ≠ 56 ∧ movedPos s i roll ∉ safeZones) := by
      rcases hskip with h | h
      · exact fun hx => hx.1 h
      · exact fun hx => hx.2 h
    unfold postCapture
    rw [if_neg hno]
    exact setTok_other _ _ _ _ _ _ fun hx => hc hx.1
  · intro hgo
    push_neg at hgo
    have hcond : movedPos s i roll ≠ 56 ∧ movedPos s i roll ∉ safeZones :=
      hgo
    have hpceq : postCapture s i roll =
        handleCollisions s.players
          (setTok s.tokenPositions s.currentPiece i (movedPos s i roll))
          (movedPos s i roll) s.currentPiece := by
      unfold postCapture
      rw [if_pos hcond]
    obtain ⟨sp1, sp2, sp3⟩ := handleCollisions_spec s.players
      (setTok s.tokenPositions s.currentPiece i (movedPos s i roll))
      (movedPos s i roll) s.currentPiece hnd
    refine ⟨?_, ?_, ?_⟩
    · intro c hcmem hcne j
      rw [hsel, selectOutcome_tokenPositions, hpceq, sp2 c hcmem hcne j]
      have htp1 : setTok s.tokenPositions s.currentPiece i
          (movedPos s i roll) c j = s.tokenPositions c j :=
        setTok_other _ _ _ _ _ _ fun hx => hcne hx.1
      rw [htp1]
      exact if_congr (by rw [capturedAt_iff, htp1]) rfl rfl
    · intro c hcnm hcne j
      rw [hsel, selectOutcome_tokenPositions, hpceq, sp1 c j (Or.inl hcnm)]
      exact setTok_other _ _ _ _ _ _ fun hx => hcne hx.1
    · rw [hpceq, sp3]
      unfold captureCount
      rw [sum_map_if_eq_filter s.players s.currentPiece
        (fun c => (List.finRange 4).countP fun j =>
          decide (capturedAt
            (setTok s.tokenPositions s.currentPiece i (movedPos s i roll))
            ((colorPaths s.currentPiece).getD
              (movedPos s i roll).toNat (0, 0)) c j))]
      apply congrArg List.sum
      apply List.map_congr_left
      intro c hcmem
      have hcne : c ≠ s.currentPiece := by
        have := List.mem_filter.mp hcmem
        simpa using this.2
      rw [List.countP_eq_length_filter]
      apply congrArg List.length
      apply List.filter_congr
      intro j _
      have htp1 : setTok s.tokenPositions s.currentPiece i
          (movedPos s i roll) c j = s.tokenPositions c j :=
        setTok_other _ _ _ _ _ _ fun hx => hcne hx.1
      exact decide_eq_decide.mpr (by rw [capturedAt_iff, htp1])
  · intro hcap
    rw [hsel]
    rcases selectOutcome_turn s i roll with ⟨_, hg, hc, _⟩ |
      ⟨hz, _, _, _⟩ | ⟨hz, _, _⟩
    · exact ⟨hc, hg⟩
    · omega
    · omega

/-- The reachable state with blue's token 0 on cell 0 and a pending 1. -/
def capState : LudoState :=
  runScript ludoStart [Step.roll 6, Step.select 0, Step.roll 1]

set_option maxRecDepth 100000 in
/-- Witness for C3: moving from 0 to the non-safe index 1 runs capture
resolution and captures nothing (all opponents are at home). -/
theorem C3_witness :
    capState.gameState = .playerHasToSelectAPosition ∧
    capState.currentDiceRoll = some 1 ∧
    (0 : Fin 4) ∈ capState.validTokenIndices ∧
    capState.players.Nodup ∧
    ¬(movedPos capState 0 1 = 56 ∨ movedPos capState 0 1 ∈ safeZones) ∧
    (postCapture capState 0 1).2 =
      ((capState.players.filter fun c => c ≠ capState.currentPiece).map
        fun c =>
          ((List.finRange 4).filter fun j =>
            0 ≤ capState.tokenPositions c j ∧
              capState.tokenPositions c j ≠ 56 ∧
              (colorPaths c).getD
                (capState.tokenPositions c j).toNat (0, 0) =
                (colorPaths capState.currentPiece).getD
                  (movedPos capState 0 1).toNat (0, 0)).length).sum := by
  have h := C3_capture_resolution capState 0 1 (by decide) (by decide)
    (by decide) (by decide) (by decide) (by decide)
  exact ⟨by decide, by decide, by decide, by decide, by decide,
    (h.2.1 (by decide)).2.2⟩
